import Mathlib

/-!
Verification of the `acquiesce` grammar compiler and streaming-parse core.

This file shallowly embeds the Rust sources of the repository in Lean 4 and
settles the frozen specification claims against them.

Part A embeds the partial-JSON consumer of `src/utils/partial_json.rs`
(`PartialJson::consume_char`, `JsonString::consume_char`, and the two
`Display` implementations).  Part B embeds the rule table of
`src/render.rs` (`Rules::insert_rule` and the combinators built on it),
the schema renderer (`Rules::insert_schema`), and the envelope compiler
paths needed by the claims.  Part C embeds the tool-choice deserialization
of `src/render/schema.rs` and the short-circuit / tool-choice logic of
`Acquiesce::render`.
-/

namespace Acquiesce

/-- `ConsumeResult` of `src/parse.rs`: per-character outcome of a consumer. -/
inductive ConsumeResult where
  | consumed
  | omitted
  | unconsumed (c : Char)
  | rejected (c : Char) (expected : String)
deriving DecidableEq, Repr

/-- `is_whitespace` of `src/utils/partial_json.rs`. -/
def isWhitespaceChar (c : Char) : Bool :=
  c = ' ' || c = '\t' || c = '\n' || c = '\r'

/-- Rust `char::is_control`: the Unicode Cc category,
`U+0000..U+001F` and `U+007F..U+009F`. -/
def isControlChar (c : Char) : Bool :=
  c.toNat < 0x20 || (0x7F ≤ c.toNat && c.toNat ≤ 0x9F)

/-- Rust `char::is_ascii_hexdigit`. -/
def isAsciiHexDigit (c : Char) : Bool :=
  ('0' ≤ c && c ≤ '9') || ('a' ≤ c && c ≤ 'f') || ('A' ≤ c && c ≤ 'F')

/-- Numeric value of one ASCII hex digit. -/
def hexDigitValue (c : Char) : Nat :=
  if '0' ≤ c && c ≤ '9' then c.toNat - '0'.toNat
  else if 'a' ≤ c && c ≤ 'f' then c.toNat - 'a'.toNat + 10
  else if 'A' ≤ c && c ≤ 'F' then c.toNat - 'A'.toNat + 10
  else 0

/-- `u32::from_str_radix(s, 16)` on a string of hex digits
(it never fails on four ASCII hex digits). -/
def hexValue (ds : List Char) : Nat :=
  ds.foldl (fun acc c => acc * 16 + hexDigitValue c) 0

/-- Domain of Rust `char::from_u32`: `Some` exactly outside the surrogate
range `0xD800..=0xDFFF` and at or below `0x10FFFF`. -/
def isValidCodePoint (n : Nat) : Bool :=
  !(0xD800 ≤ n && n ≤ 0xDFFF) && n ≤ 0x10FFFF

/-- `StringState` of `src/utils/partial_json.rs`. -/
inductive StringState where
  | start
  | opened
  | escaped
  | hexDigits (ds : List Char)
  | closed
deriving DecidableEq, Repr

/-- `JsonString` of `src/utils/partial_json.rs`. -/
structure JsonString where
  buffer : String
  state : StringState
deriving DecidableEq, Repr

/-- `JsonString::consume_char` (lines 395-465 of `partial_json.rs`).
Returns the updated state together with the `ConsumeResult`.
Note: in the `HexDigits` arm, after a successful fourth digit the Rust code
returns `Consumed` without resetting the state (the `self.state =
StringState::Opened` line is only reachable when `from_str_radix` fails,
which cannot happen on four ASCII hex digits); the embedding keeps the
state at `hexDigits` accordingly. -/
def JsonString.consumeChar (s : JsonString) (c : Char) : JsonString × ConsumeResult :=
  match s.state with
  | .start =>
      if isWhitespaceChar c then (s, .omitted)
      else if c = '"' then ({ s with state := .opened }, .consumed)
      else (s, .rejected c "a valid json string start character")
  | .opened =>
      if c = '"' then ({ s with state := .closed }, .consumed)
      else if c = '\\' then ({ s with state := .escaped }, .omitted)
      else if isControlChar c then (s, .rejected c "not a raw control character")
      else ({ s with buffer := s.buffer.push c }, .consumed)
  | .escaped =>
      if c = '"' then ({ s with buffer := s.buffer.push '"', state := .opened }, .consumed)
      else if c = '\\' then ({ s with buffer := s.buffer.push '\\', state := .opened }, .consumed)
      else if c = '/' then ({ s with buffer := s.buffer.push '/', state := .opened }, .consumed)
      else if c = 'b' then ({ s with buffer := s.buffer.push '\x08', state := .opened }, .consumed)
      else if c = 'f' then ({ s with buffer := s.buffer.push '\x0C', state := .opened }, .consumed)
      else if c = 'n' then ({ s with buffer := s.buffer.push '\n', state := .opened }, .consumed)
      else if c = 'r' then ({ s with buffer := s.buffer.push '\r', state := .opened }, .consumed)
      else if c = 't' then ({ s with buffer := s.buffer.push '\t', state := .opened }, .consumed)
      else if c = 'u' then ({ s with state := .hexDigits [] }, .omitted)
      else (s, .rejected c "a valid json escape character")
  | .hexDigits ds =>
      if isAsciiHexDigit c then
        let ds' := ds ++ [c]
        if ds'.length = 4 then
          let cp := hexValue ds'
          if isValidCodePoint cp then
            ({ s with buffer := s.buffer.push (Char.ofNat cp), state := .hexDigits ds' },
             .consumed)
          else
            ({ s with state := .hexDigits ds' }, .rejected c "a valid unicode code point")
        else
          ({ s with state := .hexDigits ds' }, .omitted)
      else (s, .rejected c "valid hex digits for unicode")
  | .closed => (s, .unconsumed c)

mutual
/-- `PartialJson` of `src/utils/partial_json.rs`. -/
inductive PartialJson where
  | start
  | object (entries : List (String × PartialJson)) (state : ObjectState)
  | array (elements : List PartialJson) (state : ArrayState)
  | str (s : JsonString)
  | number (buffer : String) (state : NumberState)
  | literal (buffer : String) (lit : String)

/-- `ObjectState` of `src/utils/partial_json.rs`. -/
inductive ObjectState where
  | opened
  | key (k : JsonString)
  | colon (k : String)
  | value (k : String) (v : PartialJson)
  | comma
  | closed

/-- `ArrayState` of `src/utils/partial_json.rs`. -/
inductive ArrayState where
  | opened
  | element (e : PartialJson)
  | comma
  | closed

/-- `NumberState` of `src/utils/partial_json.rs`. -/
inductive NumberState where
  | openedPositive
  | openedZero
  | openedNegative
  | firstDecimal
  | decimal
  | exponentSign
  | firstExponent
  | exponent
end

/-- The `PartialJson::Start` arm of `consume_char` (also run on the fresh
element a JSON array creates in its `Opened` state). -/
def PartialJson.startStep (c : Char) : PartialJson × ConsumeResult :=
  if isWhitespaceChar c then (.start, .omitted)
  else if c = '\x7b' then (.object [] .opened, .consumed)
  else if c = '[' then (.array [] .opened, .consumed)
  else if c = '"' then (.str ⟨"", .opened⟩, .consumed)
  else if '1' ≤ c && c ≤ '9' then (.number (String.singleton c) .openedPositive, .consumed)
  else if c = '0' then (.number (String.singleton c) .openedZero, .consumed)
  else if c = '-' then (.number (String.singleton c) .openedNegative, .consumed)
  else if c = 't' then (.literal (String.singleton c) "true", .consumed)
  else if c = 'f' then (.literal (String.singleton c) "false", .consumed)
  else if c = 'n' then (.literal (String.singleton c) "null", .consumed)
  else (.start, .rejected c "a valid json start character")

/-- The second `match state` of the `PartialJson::Object` arm (run after the
in-flight key/value, if any, handed the character back). -/
def PartialJson.objectStep (entries : List (String × PartialJson)) (st : ObjectState)
    (c : Char) : PartialJson × ConsumeResult :=
  match st with
  | .opened =>
      if isWhitespaceChar c then (.object entries .opened, .omitted)
      else if c = '\x7d' then (.object entries .closed, .consumed)
      else if c = '"' then (.object entries (.key ⟨"", .opened⟩), .consumed)
      else (.object entries .opened, .rejected c "a valid json object start character")
  | .colon k =>
      if isWhitespaceChar c then (.object entries (.colon k), .omitted)
      else if c = ':' then (.object entries (.value k .start), .consumed)
      else (.object entries (.colon k), .rejected c "a valid json object key value separator")
  | .comma =>
      if isWhitespaceChar c then (.object entries .comma, .omitted)
      else if c = ',' then (.object entries (.key ⟨"", .start⟩), .consumed)
      else if c = '\x7d' then (.object entries .closed, .consumed)
      else (.object entries .comma, .rejected c "a valid json object entry separator")
  | .closed => (.object entries .closed, .unconsumed c)
  | st => (.object entries st, .consumed)

/-- The second `match state` of the `PartialJson::Array` arm. -/
def PartialJson.arrayStep (elements : List PartialJson) (st : ArrayState)
    (c : Char) : PartialJson × ConsumeResult :=
  match st with
  | .opened =>
      if isWhitespaceChar c then (.array elements .opened, .omitted)
      else if c = ']' then (.array elements .closed, .consumed)
      else
        let (element, r) := PartialJson.startStep c
        (.array elements (.element element), r)
  | .comma =>
      if isWhitespaceChar c then (.array elements .comma, .omitted)
      else if c = ',' then (.array elements (.element .start), .consumed)
      else if c = ']' then (.array elements .closed, .consumed)
      else (.array elements .comma, .rejected c "a valid json array element separator")
  | .closed => (.array elements .closed, .unconsumed c)
  | st => (.array elements st, .consumed)

/-- The `PartialJson::Number` arm of `consume_char`. -/
def PartialJson.numberStep (buffer : String) (st : NumberState)
    (c : Char) : PartialJson × ConsumeResult :=
  let keep : NumberState → PartialJson × ConsumeResult :=
    fun st' => (.number (buffer.push c) st', .consumed)
  let stay : ConsumeResult → PartialJson × ConsumeResult :=
    fun r => (.number buffer st, r)
  let isDigit : Bool := '0' ≤ c && c ≤ '9'
  match st with
  | .openedPositive =>
      if isDigit then keep .openedPositive
      else if c = '.' then keep .firstDecimal
      else if c = 'e' || c = 'E' then keep .exponentSign
      else stay (.unconsumed c)
  | .openedZero =>
      if c = '.' then keep .firstDecimal
      else if c = 'e' || c = 'E' then keep .exponentSign
      else if isDigit then stay (.rejected c "a dot or an exponent")
      else stay (.unconsumed c)
  | .openedNegative =>
      if '1' ≤ c && c ≤ '9' then keep .openedPositive
      else if c = '0' then keep .openedZero
      else stay (.rejected c "a digit")
  | .firstDecimal =>
      if isDigit then keep .decimal
      else stay (.rejected c "a digit")
  | .decimal =>
      if isDigit then keep .decimal
      else if c = 'e' || c = 'E' then keep .exponentSign
      else stay (.unconsumed c)
  | .exponentSign =>
      if c = '+' || c = '-' then keep .firstExponent
      else if isDigit then keep .exponent
      else stay (.rejected c "a sign or a digit")
  | .firstExponent =>
      if isDigit then keep .exponent
      else stay (.rejected c "a digit")
  | .exponent =>
      if isDigit then keep .exponent
      else stay (.unconsumed c)

/-- `PartialJson::consume_char` (lines 87-334 of `partial_json.rs`). -/
def PartialJson.consumeChar : PartialJson → Char → PartialJson × ConsumeResult
  | .start, c => PartialJson.startStep c
  | .object entries st, c =>
      match st with
      | .key k =>
          let (k', r) := k.consumeChar c
          match r with
          | .unconsumed _ => PartialJson.objectStep entries (.colon k'.buffer) c
          | r => (.object entries (.key k'), r)
      | .value key v =>
          let (v', r) := PartialJson.consumeChar v c
          match r with
          | .unconsumed _ => PartialJson.objectStep (entries ++ [(key, v')]) .comma c
          | r => (.object entries (.value key v'), r)
      | st => PartialJson.objectStep entries st c
  | .array elements st, c =>
      match st with
      | .element e =>
          let (e', r) := PartialJson.consumeChar e c
          match r with
          | .unconsumed _ => PartialJson.arrayStep (elements ++ [e']) .comma c
          | r => (.array elements (.element e'), r)
      | st => PartialJson.arrayStep elements st c
  | .str js, c =>
      let (js', r) := js.consumeChar c
      (.str js', r)
  | .number buffer st, c => PartialJson.numberStep buffer st c
  | .literal buffer lit, c =>
      if buffer.utf8ByteSize = lit.utf8ByteSize then
        (.literal buffer lit, .unconsumed c)
      else
        let buffer' := buffer.push c
        if buffer'.isPrefixOf lit then (.literal buffer' lit, .consumed)
        else (.literal (buffer'.dropRight 1) lit, .rejected c lit)

/-- Lowercase hex rendering of a code point, `{:04x}`-padded to four digits
(all control characters fit in four digits). -/
def toHex4 (n : Nat) : String :=
  let d : Nat → Char := fun k =>
    if k < 10 then Char.ofNat ('0'.toNat + k) else Char.ofNat ('a'.toNat + (k - 10))
  String.mk [d (n / 4096 % 16), d (n / 256 % 16), d (n / 16 % 16), d (n % 16)]

/-- Per-character escaping of the `Display` impl for `JsonString`
(lines 468-495 of `partial_json.rs`); the `is_control` guard is matched
first, exactly as the Rust `match` arms are ordered. -/
def escapeJsonChar (c : Char) : String :=
  if isControlChar c then "\\u" ++ toHex4 c.toNat
  else if c = '"' then "\\\""
  else if c = '\\' then "\\\\"
  else if c = '/' then "\\/"
  else if c = '\x08' then "\\b"
  else if c = '\x0C' then "\\f"
  else if c = '\n' then "\\n"
  else if c = '\r' then "\\r"
  else if c = '\t' then "\\t"
  else String.singleton c

/-- `Display` for `JsonString`: an opening quote unless the state is `Start`,
the escaped buffer, and a closing quote only in the `Closed` state. -/
def JsonString.render (s : JsonString) : String :=
  (if s.state = .start then "" else "\"")
    ++ String.join (s.buffer.data.map escapeJsonChar)
    ++ (if s.state = .closed then "\"" else "")

mutual
/-- `Display` for `PartialJson` (lines 337-392 of `partial_json.rs`). -/
def PartialJson.render : PartialJson → String
  | .start => ""
  | .object entries st =>
      let commaPrefix := if entries.isEmpty then "" else ","
      "\x7b" ++ PartialJson.renderEntries entries ++
      (match st with
       | .opened => ""
       | .key k => commaPrefix ++ k.render
       | .colon k => commaPrefix ++ "\"" ++ k ++ "\""
       | .value k v => commaPrefix ++ "\"" ++ k ++ "\":" ++ PartialJson.render v
       | .comma => ""
       | .closed => "\x7d")
  | .array elements st =>
      "[" ++ PartialJson.renderElements elements ++
      (match st with
       | .opened => ""
       | .element e => (if elements.isEmpty then "" else ",") ++ PartialJson.render e
       | .comma => ""
       | .closed => "]")
  | .str js => js.render
  | .number buffer _ => buffer
  | .literal buffer _ => buffer

/-- Accepted object entries, comma-separated, keys rendered verbatim inside
quotes (the `Display` impl does not re-escape accepted keys). -/
def PartialJson.renderEntries : List (String × PartialJson) → String
  | [] => ""
  | [(k, v)] => "\"" ++ k ++ "\":" ++ PartialJson.render v
  | (k, v) :: rest =>
      "\"" ++ k ++ "\":" ++ PartialJson.render v ++ "," ++ PartialJson.renderEntries rest

/-- Accepted array elements, comma-separated. -/
def PartialJson.renderElements : List PartialJson → String
  | [] => ""
  | [e] => PartialJson.render e
  | e :: rest => PartialJson.render e ++ "," ++ PartialJson.renderElements rest
end

/-- Feed a list of characters one at a time to the consumer, collecting the
per-character results (the consumer state is threaded through every
character, as `partial_json_consumer` does). -/
def PartialJson.feed (p : PartialJson) : List Char → PartialJson × List ConsumeResult
  | [] => (p, [])
  | c :: cs =>
      let (p', r) := p.consumeChar c
      let (p'', rs) := (PartialJson.feed p' cs)
      (p'', r :: rs)

/-- The state after feeding, from the `Start` state. -/
def PartialJson.runFresh (cs : List Char) : PartialJson :=
  (PartialJson.feed .start cs).1

/-- The per-character results of feeding from the `Start` state. -/
def PartialJson.resultsFresh (cs : List Char) : List ConsumeResult :=
  (PartialJson.feed .start cs).2

/-! ## Part B: the rule table and the grammar compiler of `src/render.rs` -/

/-- `RenderError` of `src/render.rs` (lines 725-747); error payloads are the
strings the source carries. -/
inductive RenderError where
  | jsonSchema (tool detail : String)
  | jsonSchemaConversion (detail : String)
  | regexInvalid (tool detail : String)
  | chatToolChoice
  | larkInvalid (tool detail : String)
  | template (detail : String)
  | jsonSerialization (detail : String)
deriving DecidableEq, Repr

/-- Outcome of running an embedded fallible computation.  `ok`/`err` mirror
Rust `Result`; `hung` marks a run on which the Rust source does not return
(its `insert_primitive` recursion is unbounded and cycles on the mutually
dependent `value`/`object`/`array` primitives), surfaced when the modelled
call-depth fuel runs out. -/
inductive Res (α : Type) where
  | ok (a : α)
  | err (e : RenderError)
  | hung
deriving DecidableEq, Repr

def Res.bind {α β : Type} : Res α → (α → Res β) → Res β
  | .ok a, f => f a
  | .err e, _ => .err e
  | .hung, _ => .hung

instance : Monad Res where
  pure := .ok
  bind := Res.bind

/-- `GrammarSyntax` of `src/render.rs`. -/
inductive GrammarSyntax where
  | lark
  | gbnf
deriving DecidableEq, Repr

/-- `RuleKey` of `src/render.rs`: a logical name and a disambiguator. -/
abbrev RuleKey := String × Nat

/-- The `Display` impl for `RuleKey`: `name ++ digits`. -/
def keyStr (k : RuleKey) : String := k.1 ++ toString k.2

/-- `Rules` of `src/render.rs`: the rule table.  The source stores the rules
in a `HashMap` with unique keys and unspecified iteration order; the
embedding keeps an association list in insertion order. -/
structure Rules where
  rules : List (RuleKey × String)
  stx : GrammarSyntax
deriving DecidableEq, Repr

/-- `Rules::new`. -/
def Rules.new (stx : GrammarSyntax) : Rules := ⟨[], stx⟩

/-- `HashMap::get` on the embedded table. -/
def findRule : List (RuleKey × String) → RuleKey → Option String
  | [], _ => none
  | e :: rest, k => if e.1 = k then some e.2 else findRule rest k

/-- Number of table entries with the given logical name and a disambiguator
at or above `c`; the termination measure of the `insert_rule` loop. -/
def countGe (m : List (RuleKey × String)) (name : String) (c : Nat) : Nat :=
  m.countP (fun e => e.1.1 = name && c ≤ e.1.2)

/-- The allocation loop of `Rules::insert_rule` (lines 631-647 of
`src/render.rs`): try `(name, c)`, reuse the key when the existing body
matches, move to `c + 1` when it is occupied with a different body, and
insert at the first free disambiguator.  Each iteration of the Rust
`while let` loop requires the current `(name, count)` to be occupied, so
`countGe m name c` bounds the remaining iterations; the loop is recursed
structurally on that bound (so the definition computes by reduction), and
the exhaustion branch is unreachable whenever the fuel exceeds that bound. -/
def insertRuleFromAux : Nat → List (RuleKey × String) → String → String → Nat →
    List (RuleKey × String) × RuleKey
  | 0, m, name, val, c => (m ++ [((name, c), val)], (name, c))
  | fuel + 1, m, name, val, c =>
      match findRule m (name, c) with
      | none => (m ++ [((name, c), val)], (name, c))
      | some v =>
          if v = val then (m, (name, c))
          else insertRuleFromAux fuel m name val (c + 1)

def insertRuleFrom (m : List (RuleKey × String)) (name val : String) (c : Nat) :
    List (RuleKey × String) × RuleKey :=
  insertRuleFromAux (countGe m name c + 1) m name val c

/-- `Rules::insert_rule`. -/
def Rules.insertRule (rs : Rules) (key value : String) : Rules × RuleKey :=
  let r := insertRuleFrom rs.rules key value 0
  ({ rs with rules := r.1 }, r.2)

/-- `Rules::insert_sequence`: space-joined rule keys. -/
def Rules.insertSequence (rs : Rules) (key : String) (sequenceKeys : List RuleKey) :
    Rules × RuleKey :=
  rs.insertRule key (String.intercalate " " (sequenceKeys.map keyStr))

/-- `Rules::insert_alternative`: `" | "`-joined rule keys. -/
def Rules.insertAlternative (rs : Rules) (key : String) (alternativeKeys : List RuleKey) :
    Rules × RuleKey :=
  rs.insertRule key (String.intercalate " | " (alternativeKeys.map keyStr))

/-- The body text `Rules::insert_repetition` builds for bounds
`(start, end)` (lines 380-399 of `src/render.rs`), following the source's
match-arm order. -/
def repetitionBody (repetitionKey : RuleKey) (start : Nat) (stop : Option Nat) : String :=
  let k := keyStr repetitionKey
  match start, stop with
  | 0, none => k ++ "*"
  | 1, none => k ++ "+"
  | 0, some 1 => k ++ "?"
  | atLeast, none => k ++ "\x7b" ++ toString atLeast ++ ",\x7d"
  | exact, some atMost =>
      if exact = atMost then k ++ "\x7b" ++ toString exact ++ "\x7d"
      else k ++ "\x7b" ++ toString exact ++ "," ++ toString atMost ++ "\x7d"

/-- `Rules::insert_repetition`. -/
def Rules.insertRepetition (rs : Rules) (key : String) (repetitionKey : RuleKey)
    (start : Nat) (stop : Option Nat) : Rules × RuleKey :=
  rs.insertRule key (repetitionBody repetitionKey start stop)

/-- JSON values (`serde_json::Value`); object entries keep their written
order. -/
inductive Json where
  | null
  | bool (b : Bool)
  | num (n : Int)
  | str (s : String)
  | arr (elements : List Json)
  | obj (entries : List (String × Json))

/-- String escaping of the external `serde_json` compact serializer:
quote, backslash and the C-escapes get short forms, other control
characters become `\uXXXX`. -/
def serdeEscapeChar (c : Char) : String :=
  if c = '"' then "\\\""
  else if c = '\\' then "\\\\"
  else if c = '\x08' then "\\b"
  else if c = '\x0C' then "\\f"
  else if c = '\n' then "\\n"
  else if c = '\r' then "\\r"
  else if c = '\t' then "\\t"
  else if c.toNat < 0x20 then "\\u" ++ toHex4 c.toNat
  else String.singleton c

def serdeEscape (s : String) : String :=
  String.join (s.data.map serdeEscapeChar)

mutual
/-- The external `serde_json` compact `Display` of a value (used by
`lark_json_schema` and `serde_json::to_string`). -/
def Json.render : Json → String
  | .null => "null"
  | .bool true => "true"
  | .bool false => "false"
  | .num n => toString n
  | .str s => "\"" ++ serdeEscape s ++ "\""
  | .arr xs => "[" ++ Json.renderList xs ++ "]"
  | .obj es => "\x7b" ++ Json.renderObj es ++ "\x7d"

def Json.renderList : List Json → String
  | [] => ""
  | [x] => Json.render x
  | x :: rest => Json.render x ++ "," ++ Json.renderList rest

def Json.renderObj : List (String × Json) → String
  | [] => ""
  | [(k, v)] => "\"" ++ serdeEscape k ++ "\":" ++ Json.render v
  | (k, v) :: rest =>
      "\"" ++ serdeEscape k ++ "\":" ++ Json.render v ++ "," ++ Json.renderObj rest
end

/-- First entry of a JSON object under the given key, if any. -/
def lookupField : List (String × Json) → String → Option Json
  | [], _ => none
  | (k, v) :: rest, key => if k = key then some v else lookupField rest key

/-- Field lookup on a JSON value (`none` on non-objects). -/
def Json.lookup (j : Json) (key : String) : Option Json :=
  match j with
  | .obj es => lookupField es key
  | _ => none

/-- `Lexeme`, the atomic grammar input.  The crate-root module declaring the
enum is not among the sources; its variants are exactly the ones matched by
`Rules::insert_lexeme` (src/render.rs lines 401-424), constructed in
`src/configs/kimik2.rs`, and listed in the spec data model:
`Text`, `Token`, `Regex { pattern }`, `JsonSchema(value)`. -/
inductive Lexeme where
  | text (t : String)
  | token (t : String)
  | regex (pattern : String)
  | jsonSchema (v : Json)

/-- `OrderedLexemes`: an ordered sequence of lexemes (crate-root newtype
over a vector, its uses in `src/render.rs` lines 192-203). -/
abbrev OrderedLexemes := List Lexeme

/-- `lark_string_literal` of `src/render/lark.rs` (no escaping is applied). -/
def larkStringLiteral (lit : String) : String := "\"" ++ lit ++ "\""

/-- `lark_regex` of `src/render/lark.rs`. -/
def larkRegex (re : String) : String := "/" ++ re ++ "/"

/-- `lark_json_schema` of `src/render/lark.rs`: `%json` followed by the
serde `Display` of the schema. -/
def larkJsonSchema (v : Json) : String := "%json " ++ Json.render v

/-- Modelled from the spec: `lark_token_literal` is called by
`Rules::insert_lexeme` but absent from `src/render/lark.rs`; spec §4.3 has
Lark `Token → raw token name`, so the token is emitted verbatim. -/
def larkTokenLiteral (tok : String) : String := tok

/-- `gbnf_string_literal` of `src/render/gbnf.rs`. -/
def gbnfStringLiteral (lit : String) : String := "\"" ++ lit ++ "\""

/-- `gbnf_regex` of `src/render/gbnf.rs`. -/
def gbnfRegex (re : String) : String := "/" ++ re ++ "/"

/-- `lark::TEXT` of `src/render/lark.rs`. -/
def larkTEXT : String := "TEXT: /[^\x7b](.|\\n)*/"

/-- `gbnf::TEXT` of `src/render/gbnf.rs`. -/
def gbnfTEXT : String := "/[^\x7b](.|\\n)*/"

/-- `NumberSchema` of the crate's schema AST as used by
`Rules::insert_number_schema`. -/
structure NumberSchema where
  integer : Bool
deriving DecidableEq, Repr

/-- `StringSchema` of the crate's schema AST as used by
`Rules::insert_string_schema`. -/
structure StringSchema where
  format : Option String
  pattern : Option String
  minLength : Nat
  maxLength : Option Nat
deriving DecidableEq, Repr

/-- The `Schema` AST consumed by `Rules::insert_schema` (spec §4.4 and the
match arms of src/render.rs lines 429-466); the `ArraySchema` and
`ObjectSchema` payloads are inlined as constructor fields. -/
inductive Schema where
  | any
  | unsatisfiable (reason : String)
  | nullSchema
  | boolean (b : Option Bool)
  | number (n : NumberSchema)
  | string (s : StringSchema)
  | array (prefixItems : List Schema) (items : Option Schema)
      (minItems : Nat) (maxItems : Option Nat)
  | object (properties : List (String × Schema)) (required : List String)
      (additionalProperties : Option Schema)
  | anyOf (alts : List Schema)
  | oneOf (alts : List Schema)
  | constValue (v : Json)
  | enumValues (vs : List Json)
  | ref (name : String)

/-- `PRIMITIVE_RULES` of `src/render.rs` (lines 689-702): name, GBNF body,
declared dependencies. -/
def PRIMITIVE_RULES : List (String × String × List String) :=
  [("space", "| \" \" | \"\\n\"\x7b1,2\x7d [ \\t]\x7b0,20\x7d", []),
   ("boolean", "(\"true\" | \"false\") space", []),
   ("decimal-part", "[0-9]\x7b1,16\x7d", []),
   ("integral-part", "[0] | [1-9] [0-9]\x7b0,15\x7d", []),
   ("number",
    "(\"-\"? integral-part) (\".\" decimal-part)? ([eE] [-+]? integral-part)? space",
    ["integral-part", "decimal-part"]),
   ("integer", "(\"-\"? integral-part) space", ["integral-part"]),
   ("value", "object | array | string | number | boolean | null",
    ["object", "array", "string", "number", "boolean", "null"]),
   ("object",
    "\"\x7b\" space ( string \":\" space value (\",\" space string \":\" space value)* )? \"\x7d\" space",
    ["string", "value"]),
   ("array", "\"[\" space ( value (\",\" space value)* )? \"]\" space", ["value"]),
   ("char",
    "[^\"\\\\\\x7F\\x00-\\x1F] | [\\\\] ([\"\\\\bfnrt] | \"u\" [0-9a-fA-F]\x7b4\x7d)",
    []),
   ("string", "\"\\\"\" char* \"\\\"\" space", ["char"]),
   ("null", "\"null\" space", [])]

/-- `FORMAT_RULES` of `src/render.rs` (lines 704-711). -/
def FORMAT_RULES : List (String × String × List String) :=
  [("date",
    "[0-9]\x7b4\x7d \"-\" ( \"0\" [1-9] | \"1\" [0-2] ) \"-\" ( \"0\" [1-9] | [1-2] [0-9] | \"3\" [0-1] )",
    []),
   ("time",
    "([01] [0-9] | \"2\" [0-3]) \":\" [0-5] [0-9] \":\" [0-5] [0-9] ( \".\" [0-9]\x7b3\x7d )? ( \"Z\" | ( \"+\" | \"-\" ) ( [01] [0-9] | \"2\" [0-3] ) \":\" [0-5] [0-9] )",
    []),
   ("date-time", "date \"T\" time", ["date", "time"]),
   ("date-string", "\"\\\"\" date \"\\\"\" space", ["date"]),
   ("time-string", "\"\\\"\" time \"\\\"\" space", ["time"]),
   ("date-time-string", "\"\\\"\" date-time \"\\\"\" space", ["date-time"])]

/-- `lookup_primitive_rule` of `src/render.rs`. -/
def lookupPrimitiveRule (name : String) : Option (String × List String) :=
  (PRIMITIVE_RULES.find? (fun r => r.1 = name)).map (·.2)

/-- `lookup_format_rule` of `src/render.rs`. -/
def lookupFormatRule (name : String) : Option (String × List String) :=
  (FORMAT_RULES.find? (fun r => r.1 = name)).map (·.2)

/-- Rust `str::to_uppercase` (the logical rule names it is applied to are
ASCII); character-wise uppercasing. -/
def rustToUppercase (s : String) : String :=
  String.mk (s.data.map Char.toUpper)

/-- Rust `str::split(sep).last()` for a character separator: the final
`/`-segment of a `$ref` name (`split` always yields at least one,
possibly empty, segment). -/
def lastSplitSegment (s : String) (sep : Char) : String :=
  let rec go : List Char → List Char → String
    | [], acc => String.mk acc.reverse
    | c :: rest, acc => if c = sep then go rest [] else go rest (c :: acc)
  go s.data []

/-- Whether a key with this logical name is in the table
(`self.rules.iter().any(|(k, _)| &k.0 == name)`). -/
def Rules.hasName (rs : Rules) (name : String) : Bool :=
  rs.rules.any (fun e => e.1.1 = name)

/-- A pending call of the `insert_primitive` recursion: either
`insert_primitive(name)` or `insert_primitive_with_deps(name, content,
deps)` with the remaining dependency list. -/
inductive PrimReq where
  | prim (name : String)
  | deps (name content : String) (deps : List String)

/-- `Rules::insert_primitive` / `insert_primitive_with_deps` (src/render.rs
lines 582-604): insert absent dependencies first (each through
`insert_primitive`), then the primitive itself if its name is not yet
present, and return `(name, 0)`.  The Rust recursion is unbounded and
cycles forever on the mutually dependent `value`/`object`/`array`
primitives (each is registered only after its dependencies, so neither
side ever observes the other as present); the embedding spends one unit of
fuel per step and reports exhaustion as `Res.hung`. -/
def Rules.primExec : Nat → Rules → PrimReq → Res (Rules × RuleKey)
  | 0, _, _ => .hung
  | fuel + 1, rs, .prim name =>
      match lookupPrimitiveRule name with
      | some (content, deps) => Rules.primExec fuel rs (.deps name content deps)
      | none => .ok (rs, (name, 0))
  | _ + 1, rs, .deps name content [] =>
      let rs' := if rs.hasName name then rs
        else { rs with rules := rs.rules ++ [((name, 0), content)] }
      .ok (rs', (name, 0))
  | fuel + 1, rs, .deps name content (dep :: rest) =>
      if rs.hasName dep then
        Rules.primExec fuel rs (.deps name content rest)
      else
        match Rules.primExec fuel rs (.prim dep) with
        | .ok (rs', _) => Rules.primExec fuel rs' (.deps name content rest)
        | .err e => .err e
        | .hung => .hung

/-- `Rules::insert_primitive`. -/
def Rules.insertPrimitiveF (fuel : Nat) (rs : Rules) (name : String) :
    Res (Rules × RuleKey) :=
  Rules.primExec fuel rs (.prim name)

/-- `Rules::insert_primitive_with_deps`. -/
def Rules.insertPrimitiveWithDepsF (fuel : Nat) (rs : Rules) (name content : String)
    (deps : List String) : Res (Rules × RuleKey) :=
  Rules.primExec fuel rs (.deps name content deps)

/-- `Rules::build_repetition_str` (src/render.rs lines 606-616). -/
def buildRepetitionStr (item : String) (minR : Nat) (maxR : Option Nat) : String :=
  match minR, maxR with
  | 0, some 0 => ""
  | 0, some 1 => item ++ "?"
  | 1, none => item ++ "+"
  | 0, none => item ++ "*"
  | m, none => item ++ "\x7b" ++ toString m ++ ",\x7d"
  | m, some mx =>
      if m = mx then item ++ "\x7b" ++ toString m ++ "\x7d"
      else item ++ "\x7b" ++ toString m ++ "," ++ toString mx ++ "\x7d"

/-- `Rules::build_repetition_sep` (src/render.rs lines 618-629). -/
def buildRepetitionSep (item : String) (minR : Nat) (maxR : Option Nat) (sep : String) :
    String :=
  if maxR = some 0 then ""
  else if minR = 0 && maxR = some 1 then item ++ "?"
  else
    let inner := "(" ++ sep ++ " " ++ item ++ ")"
    let innerRep := buildRepetitionStr inner (minR - 1) (maxR.map (· - 1))
    let result := item ++ " " ++ innerRep
    if minR = 0 then "(" ++ result ++ ")?" else result

/-- Rust `str::trim_start_matches` for a single pattern character. -/
def trimStartMatches (s : String) (c : Char) : String :=
  String.mk (s.data.dropWhile (· = c))

/-- Rust `str::trim_end_matches` for a single pattern character. -/
def trimEndMatches (s : String) (c : Char) : String :=
  String.mk ((s.data.reverse.dropWhile (· = c)).reverse)

/-- `Rules::insert_number_schema` (src/render.rs lines 468-474). -/
def Rules.insertNumberSchemaF (fuel : Nat) (rs : Rules) (ns : NumberSchema) :
    Res (Rules × RuleKey) :=
  if ns.integer then rs.insertPrimitiveF fuel "integer"
  else rs.insertPrimitiveF fuel "number"

/-- The pattern / length / generic fallthrough of
`Rules::insert_string_schema` (src/render.rs lines 485-498). -/
def Rules.insertStringSchemaRest (fuel : Nat) (rs : Rules) (name : String)
    (ss : StringSchema) : Res (Rules × RuleKey) :=
  match ss.pattern with
  | some pattern =>
      let pat := trimEndMatches (trimStartMatches pattern '^') '$'
      .ok (rs.insertRule name ("\"\\\"\" (" ++ pat ++ ") \"\\\"\" space"))
  | none =>
      if ss.minLength > 0 || ss.maxLength.isSome then do
        let (rs₁, charKey) ← rs.insertPrimitiveF fuel "char"
        let rep := buildRepetitionStr (keyStr charKey) ss.minLength ss.maxLength
        pure (rs₁.insertRule name ("\"\\\"\" " ++ rep ++ " \"\\\"\" space"))
      else rs.insertPrimitiveF fuel "string"

/-- `Rules::insert_string_schema` (src/render.rs lines 476-499). -/
def Rules.insertStringSchemaF (fuel : Nat) (rs : Rules) (name : String)
    (ss : StringSchema) : Res (Rules × RuleKey) :=
  match ss.format with
  | some fmt =>
      let fmtName := fmt ++ "-string"
      match lookupFormatRule fmtName with
      | some (content, deps) => Rules.insertPrimitiveWithDepsF fuel rs fmtName content deps
      | none => Rules.insertStringSchemaRest fuel rs name ss
  | none => Rules.insertStringSchemaRest fuel rs name ss

/-- The comma interleaving of the tuple/required loops (`if i > 0
{ seq.push(comma) } seq.push(key)`). -/
def interleaveComma (comma : RuleKey) (ks : List RuleKey) : List RuleKey :=
  match ks with
  | [] => []
  | k :: rest => k :: rest.flatMap (fun k' => [comma, k'])

/-- The optional-property loop of `Rules::insert_object_schema`
(src/render.rs lines 564-571). -/
def Rules.objectOptLoop (rs : Rules) (parts optional_ : List RuleKey) :
    Rules × List RuleKey :=
  match optional_ with
  | [] => (rs, parts)
  | k :: rest =>
      let r := rs.insertRule (keyStr k ++ "-opt") ("(\",\" space " ++ keyStr k ++ ")?")
      Rules.objectOptLoop r.1 (parts ++ [r.2]) rest

mutual
/-- Structural size of a schema, the termination measure of the
`insert_schema` recursion. -/
def schemaSize : Schema → Nat
  | .array pre items _ _ => schemaListSize pre + schemaOptSize items + 2
  | .object props _ _ => schemaPropsSize props + 2
  | .anyOf alts => schemaListSize alts + 1
  | .oneOf alts => schemaListSize alts + 1
  | _ => 1

def schemaListSize : List Schema → Nat
  | [] => 0
  | s :: rest => schemaSize s + schemaListSize rest + 1

def schemaOptSize : Option Schema → Nat
  | none => 0
  | some s => schemaSize s + 1

def schemaPropsSize : List (String × Schema) → Nat
  | [] => 0
  | (_, s) :: rest => schemaSize s + schemaPropsSize rest + 1
end

mutual
/-- `Rules::insert_schema` (src/render.rs lines 429-466). -/
def Rules.insertSchemaF (fuel : Nat) (rs : Rules) (name : String) (s : Schema) :
    Res (Rules × RuleKey) :=
  match s with
  | .any => rs.insertPrimitiveF fuel "value"
  | .unsatisfiable reason => .err (.jsonSchemaConversion ("Unsatisfiable: " ++ reason))
  | .nullSchema => rs.insertPrimitiveF fuel "null"
  | .boolean none => rs.insertPrimitiveF fuel "boolean"
  | .boolean (some b) =>
      let lit := if b then "true" else "false"
      .ok (rs.insertRule name ("\"" ++ lit ++ "\" space"))
  | .number num => rs.insertNumberSchemaF fuel num
  | .string ss => rs.insertStringSchemaF fuel name ss
  | .array pre items minI maxI => Rules.insertArraySchemaF fuel rs name pre items minI maxI
  | .object props required addl => Rules.insertObjectSchemaF fuel rs name props required addl
  | .anyOf alts => do
      let (rs₁, altKeys) ← Rules.insertSchemaAltsF fuel rs name 0 alts
      pure (rs₁.insertAlternative name altKeys)
  | .oneOf alts => do
      let (rs₁, altKeys) ← Rules.insertSchemaAltsF fuel rs name 0 alts
      pure (rs₁.insertAlternative name altKeys)
  | .constValue v =>
      let lit := gbnfStringLiteral (Json.render v)
      .ok (rs.insertRule name (lit ++ " space"))
  | .enumValues vs =>
      let alts := vs.map (fun v => gbnfStringLiteral (Json.render v))
      .ok (rs.insertRule name ("(" ++ String.intercalate " | " alts ++ ") space"))
  | .ref refName =>
      .ok (rs, (lastSplitSegment refName '/', 0))
termination_by schemaSize s
decreasing_by all_goals (simp [schemaSize, schemaListSize, schemaOptSize, schemaPropsSize]; try omega)

/-- The `AnyOf`/`OneOf` loop: each alternative under `name-i`. -/
def Rules.insertSchemaAltsF (fuel : Nat) (rs : Rules) (name : String) (i : Nat)
    (alts : List Schema) : Res (Rules × List RuleKey) :=
  match alts with
  | [] => .ok (rs, [])
  | s :: rest => do
      let (rs₁, k) ← Rules.insertSchemaF fuel rs (name ++ "-" ++ toString i) s
      let (rs₂, ks) ← Rules.insertSchemaAltsF fuel rs₁ name (i + 1) rest
      pure (rs₂, k :: ks)
termination_by schemaListSize alts
decreasing_by all_goals (simp [schemaSize, schemaListSize, schemaOptSize, schemaPropsSize]; try omega)

/-- The tuple loop of `Rules::insert_array_schema`: each prefix item under
`name-tuple-i`. -/
def Rules.insertSchemaTupleF (fuel : Nat) (rs : Rules) (name : String) (i : Nat)
    (ss : List Schema) : Res (Rules × List RuleKey) :=
  match ss with
  | [] => .ok (rs, [])
  | s :: rest => do
      let (rs₁, k) ← Rules.insertSchemaF fuel rs (name ++ "-tuple-" ++ toString i) s
      let (rs₂, ks) ← Rules.insertSchemaTupleF fuel rs₁ name (i + 1) rest
      pure (rs₂, k :: ks)
termination_by schemaListSize ss
decreasing_by all_goals (simp [schemaSize, schemaListSize, schemaOptSize, schemaPropsSize]; try omega)

/-- `Rules::insert_array_schema` (src/render.rs lines 501-524). -/
def Rules.insertArraySchemaF (fuel : Nat) (rs : Rules) (name : String)
    (prefixItems : List Schema) (items : Option Schema) (minItems : Nat)
    (maxItems : Option Nat) : Res (Rules × RuleKey) :=
  match prefixItems with
  | pre0 :: preRest => do
      let (rs₁, itemKeys) ← Rules.insertSchemaTupleF fuel rs name 0 (pre0 :: preRest)
      let (rs₂, comma) := rs₁.insertRule "comma" "\",\" space"
      let seq := interleaveComma comma itemKeys
      let (rs₃, inner) := rs₂.insertSequence (name ++ "-items") seq
      pure (rs₃.insertRule name ("\"[\" space " ++ keyStr inner ++ " \"]\" space"))
  | [] =>
      match items with
      | some itemSchema => do
          let (rs₁, itemKey) ← Rules.insertSchemaF fuel rs (name ++ "-item") itemSchema
          let rep := buildRepetitionSep (keyStr itemKey) minItems maxItems "\",\" space"
          pure (rs₁.insertRule name ("\"[\" space " ++ rep ++ " \"]\" space"))
      | none => rs.insertPrimitiveF fuel "array"
termination_by schemaListSize prefixItems + schemaOptSize items + 1
decreasing_by all_goals (simp [schemaSize, schemaListSize, schemaOptSize, schemaPropsSize]; try omega)

/-- The property loop of `Rules::insert_object_schema` (src/render.rs lines
531-540): a value rule and a `"key" space ":" space value` rule per
property. -/
def Rules.insertObjectPropsF (fuel : Nat) (rs : Rules) (name : String)
    (props : List (String × Schema)) : Res (Rules × List (String × RuleKey)) :=
  match props with
  | [] => .ok (rs, [])
  | (propName, propSchema) :: rest => do
      let (rs₁, propKey) ← Rules.insertSchemaF fuel rs (name ++ "-" ++ propName) propSchema
      let keyLit := gbnfStringLiteral ("\"" ++ propName ++ "\"")
      let kvRule := keyLit ++ " space \":\" space " ++ keyStr propKey
      let (rs₂, kvKey) := rs₁.insertRule (name ++ "-" ++ propName ++ "-kv") kvRule
      let (rs₃, ks) ← Rules.insertObjectPropsF fuel rs₂ name rest
      pure (rs₃, (propName, kvKey) :: ks)
termination_by schemaPropsSize props
decreasing_by all_goals (simp [schemaSize, schemaListSize, schemaOptSize, schemaPropsSize]; try omega)

/-- `Rules::insert_object_schema` (src/render.rs lines 526-580).
`additional_properties` is consulted only by the emptiness check, exactly
as in the source. -/
def Rules.insertObjectSchemaF (fuel : Nat) (rs : Rules) (name : String)
    (props : List (String × Schema)) (required : List String)
    (addl : Option Schema) : Res (Rules × RuleKey) :=
  if props.isEmpty && addl.isNone then
    rs.insertPrimitiveF fuel "object"
  else do
    let (rs₁, kvRules) ← Rules.insertObjectPropsF fuel rs name props
    let requiredKeys := (kvRules.filter (fun kv => required.contains kv.1)).map (·.2)
    let optionalKeys := (kvRules.filter (fun kv => !required.contains kv.1)).map (·.2)
    let (rs₂, parts₁) :=
      if requiredKeys ≠ [] then
        let (rsa, comma) := rs₁.insertRule "comma" "\",\" space"
        let seq := interleaveComma comma requiredKeys
        let (rsb, reqKey) := rsa.insertSequence (name ++ "-required") seq
        (rsb, [reqKey])
      else (rs₁, ([] : List RuleKey))
    let (rs₃, parts) := Rules.objectOptLoop rs₂ parts₁ optionalKeys
    let (rs₄, inner) :=
      if parts = [] then rs₃.insertRule (name ++ "-empty") ""
      else rs₃.insertSequence (name ++ "-body") parts
    pure (rs₄.insertRule name ("\"\x7b\"  space " ++ keyStr inner ++ " \"\x7d\" space"))
termination_by schemaPropsSize props + 1
decreasing_by all_goals (simp [schemaSize, schemaListSize, schemaOptSize, schemaPropsSize]; try omega)
end

/-- The Lark arm of `Rules::insert_lexeme` (src/render.rs lines 403-409):
the body text for each lexeme kind. -/
def larkLexemeRule : Lexeme → String
  | .text t => larkStringLiteral t
  | .token t => larkTokenLiteral t
  | .regex p => larkRegex p
  | .jsonSchema v => larkJsonSchema v

/-- `Rules::insert_lexeme` (src/render.rs lines 401-426).  Under GBNF a
JSON-schema lexeme is first lowered through the crate's schema compiler,
whose module is not among the sources; it is passed in as the `compile`
parameter. -/
def Rules.insertLexeme (rs : Rules) (compile : Json → Except String Schema) (fuel : Nat)
    (key : String) (lx : Lexeme) : Res (Rules × RuleKey) :=
  match rs.stx with
  | .lark => .ok (rs.insertRule (rustToUppercase key) (larkLexemeRule lx))
  | .gbnf =>
      match lx with
      | .text t => .ok (rs.insertRule key (gbnfStringLiteral t))
      | .token t => .ok (rs.insertRule key (gbnfStringLiteral t))
      | .regex p => .ok (rs.insertRule key (gbnfRegex p))
      | .jsonSchema v =>
          match compile v with
          | .error e => .err (.jsonSchemaConversion e)
          | .ok schema => Rules.insertSchemaF fuel rs key schema

/-- `Rules::insert_text_lexeme` (src/render.rs lines 649-658). -/
def Rules.insertTextLexeme (rs : Rules) (compile : Json → Except String Schema)
    (fuel : Nat) : Res (Rules × RuleKey) :=
  match rs.stx with
  | .lark => rs.insertLexeme compile fuel "text" (.text larkTEXT)
  | .gbnf => rs.insertLexeme compile fuel "text" (.text gbnfTEXT)

/-- `Rules::resolve` (src/render.rs lines 660-686): remove the root rule
and print it inline, then the remaining rules (the source iterates a
`HashMap` in unspecified order; the embedding uses insertion order). -/
def Rules.resolve (rs : Rules) (rootKey : RuleKey) : String :=
  let rootRule := (findRule rs.rules rootKey).getD ""
  let rest := rs.rules.filter (fun e => e.1 ≠ rootKey)
  match rs.stx with
  | .lark =>
      "start: " ++ rootRule ++ "\n"
        ++ String.intercalate "\n" (rest.map (fun e => keyStr e.1 ++ ": " ++ e.2))
  | .gbnf =>
      "root ::= " ++ rootRule ++ "\n"
        ++ String.intercalate "\n" (rest.map (fun e => keyStr e.1 ++ " ::= " ++ e.2))

/-! ## Part C: tools, tool choice and the envelope compiler -/

/-- `TemplateTool` of `src/render/schema.rs` (lines 295-300). -/
structure TemplateTool where
  name : String
  description : Option String
  parameters : Json

/-- `FunctionTool` of `src/render/schema.rs` (lines 252-257). -/
structure FunctionTool where
  name : String
  description : Option String
  parameters : Json

/-- `CustomToolSyntax` of `src/render/schema.rs`. -/
inductive CustomToolSyntax where
  | larkSyntax
  | regexSyntax

/-- `CustomToolFormat` of `src/render/schema.rs` (the `CustomToolGrammar`
payload is inlined). -/
inductive CustomToolFormat where
  | text
  | grammar (definition : String) (sx : CustomToolSyntax)

/-- `CustomTool` of `src/render/schema.rs`. -/
structure CustomTool where
  name : String
  description : Option String
  format : CustomToolFormat

/-- `ChatTool` of `src/render/schema.rs` (lines 287-293). -/
inductive ChatTool where
  | function (function : FunctionTool)
  | custom (custom : CustomTool)

/-- `From<ChatTool> for TemplateTool` (src/render/schema.rs lines 302-343):
custom tools synthesize a string parameter schema. -/
def ChatTool.toTemplateTool : ChatTool → TemplateTool
  | .function f => ⟨f.name, f.description, f.parameters⟩
  | .custom c =>
      ⟨c.name, c.description,
        match c.format with
        | .text => .obj [("type", .str "string")]
        | .grammar definition .larkSyntax =>
            .obj [("type", .str "string"),
                  ("description", .str
                    ("a string that conforms to the following Lark grammar: " ++ definition))]
        | .grammar definition .regexSyntax =>
            .obj [("type", .str "string"), ("pattern", .str definition)]⟩

/-- `ToolChoice` of `src/render/schema.rs` (lines 380-388), named
`ChatToolChoice` at its `src/render.rs` use sites; the `FunctionName`
wrapper is collapsed to the name string. -/
inductive ChatToolChoice where
  | auto
  | none
  | required
  | function (name : String)
deriving DecidableEq, Repr

/-- `ToolChoiceRepr` of `src/render/schema.rs` (lines 357-362): the
untagged wire form — a bare JSON string, or the typed
`{"type":"function","function":{"name":…}}` object (collapsed to its
name). -/
inductive ToolChoiceRepr where
  | string (s : String)
  | typedChoice (name : String)
deriving DecidableEq, Repr

/-- `From<ToolChoiceRepr> for ToolChoice` (src/render/schema.rs lines
364-378): a total conversion — the three exact strings map to their
variants and every other string becomes `Function` with that name. -/
def ChatToolChoice.fromRepr : ToolChoiceRepr → ChatToolChoice
  | .string s =>
      if s = "none" then .none
      else if s = "auto" then .auto
      else if s = "required" then .required
      else .function s
  | .typedChoice name => .function name

/-- `Thinking` as used by `Acquiesce::render` (src/render.rs lines
162-166): prefix and suffix lexeme sequences (the crate-root declaration is
outside the sources; the render path calls `.render(&mut rules)` on both
fields).  `pfx` stands for the source field `prefix`, a reserved word in
Lean. -/
structure Thinking where
  pfx : OrderedLexemes
  suffix : OrderedLexemes

/-- `Arguments` of the crate root (`src/lib.rs` lines 29-33). -/
inductive Arguments where
  | jsonObject

/-- `ToolCall` of the crate root (`src/lib.rs` lines 35-53), with the
literal sequences as `OrderedLexemes` per their render-path uses. -/
inductive ToolCall where
  | jsonObject (nameKey argumentKey : String)
  | jsonArray (nameKey argumentKey : String)
  | namedParameters (pfx : Option OrderedLexemes) (delimiter : Option OrderedLexemes)
      (arguments : Arguments) (suffix : Option OrderedLexemes)

/-- `ToolCalls` of the crate root (`src/lib.rs` lines 55-67). -/
inductive ToolCalls where
  | toolCall (toolCall : ToolCall)
  | toolCallsSection (pfx : OrderedLexemes) (toolCall : ToolCall)
      (suffix : Option OrderedLexemes)

/-- `Config<T>` of the crate root (`src/lib.rs` lines 75-85), at
`T = ChatTemplate` (the `Acquiesce` alias).  The chat template is the
external minijinja engine; it is modelled as its rendering function
(messages and tools to prompt, or a template error detail), and the
message type is opaque to the compiler. -/
inductive Config (Msg : Type) where
  | components (chatTemplate : List Msg → List TemplateTool → Except String String)
      (thinking : Option Thinking) (toolCalls : Option ToolCalls)
  | harmony

/-- `RenderResult` of `src/render.rs` (lines 32-36): the prompt and the
optional grammar.  The source's `parser` field is commented out: `render`
produces no parser. -/
structure RenderResult where
  prompt : String
  grammar : Option String
deriving DecidableEq, Repr

/-- The external collaborators `Acquiesce::render` consults — the
`jsonschema` meta-validator, the `llguidance` Lark parser factory and the
`regex` engine (each `none` on success, `some detail` on failure) — and
the crate's JSON-schema-to-AST compiler (`SchemaCompiler::compile`), whose
module is not among the sources. -/
structure RenderExternals where
  metaValidate : Json → Option String
  larkValidate : String → Option String
  regexValidate : String → Option String
  schemaCompile : Json → Except String Schema

/-- The tool-validation `try_fold` of `Acquiesce::render` (src/render.rs
lines 68-117): meta-validate function tools, validate custom grammar /
regex tools, and collect the `TemplateTool` forms in order. -/
def validateTools (ext : RenderExternals) : List ChatTool → Except RenderError (List TemplateTool)
  | [] => .ok []
  | tool :: rest =>
      let check : Except RenderError Unit :=
        match tool with
        | .function f =>
            match ext.metaValidate f.parameters with
            | Option.some e => .error (.jsonSchema f.name e)
            | Option.none => .ok ()
        | .custom c =>
            match c.format with
            | .text => .ok ()
            | .grammar definition .larkSyntax =>
                match ext.larkValidate definition with
                | Option.some e => .error (.larkInvalid c.name e)
                | Option.none => .ok ()
            | .grammar definition .regexSyntax =>
                match ext.regexValidate definition with
                | Option.some e => .error (.regexInvalid c.name e)
                | Option.none => .ok ()
      match check with
      | .error e => .error e
      | .ok () =>
          match validateTools ext rest with
          | .error e => .error e
          | .ok ts => .ok (tool.toTemplateTool :: ts)

/-- `TemplateTool::naive_json_schema` (src/render.rs lines 205-227),
exactly as the `json!` literal is written: the property under the literal
key `"name"` enumerates `name_key`, and `"required"` sits inside
`"properties"`. -/
def TemplateTool.naiveJsonSchema (tool : TemplateTool) (nameKey argumentKey : String) :
    Json :=
  .obj [("type", .str "object"),
        ("properties", .obj
          [("name", .obj [("type", .str "string"), ("enum", .arr [.str nameKey])]),
           (argumentKey, .obj [("type", .str "object"), ("properties", tool.parameters)]),
           ("required", .arr [.str "name", .str argumentKey])])]

/-- The per-lexeme loop of `OrderedLexemes::render` (src/render.rs lines
196-199): each lexeme under the logical name `sequence`. -/
def OrderedLexemes.renderKeys (ext : RenderExternals) (fuel : Nat) :
    OrderedLexemes → Rules → Res (Rules × List RuleKey)
  | [], rs => .ok (rs, [])
  | lx :: rest, rs => do
      let (rs₁, k) ← rs.insertLexeme ext.schemaCompile fuel "sequence" lx
      let (rs₂, ks) ← OrderedLexemes.renderKeys ext fuel rest rs₁
      pure (rs₂, k :: ks)

/-- `OrderedLexemes::render` (src/render.rs lines 192-203). -/
def OrderedLexemes.render (ol : OrderedLexemes) (ext : RenderExternals) (fuel : Nat)
    (rs : Rules) : Res (Rules × RuleKey) := do
  let (rs₁, ks) ← OrderedLexemes.renderKeys ext fuel ol rs
  pure (rs₁.insertSequence "sequence" ks)

/-- The per-tool loop of the `NamedParameters` arm of `ToolCall::render`
(src/render.rs lines 300-330): optional prefix, the tool name as a `Text`
lexeme, optional delimiter, the `JsonSchema` arguments lexeme, optional
suffix, sequenced under `tool_choice_item`. -/
def ToolCall.renderAlternatives (ext : RenderExternals) (fuel : Nat)
    (pfx delimiter : Option OrderedLexemes) (arguments : Arguments)
    (suffix : Option OrderedLexemes) :
    List TemplateTool → Rules → Res (Rules × List RuleKey)
  | [], rs => .ok (rs, [])
  | tool :: rest, rs => do
      let (rs₁, accP) ← match pfx with
        | Option.some p => do
            let (r, k) ← OrderedLexemes.render p ext fuel rs
            pure (r, [k])
        | Option.none => pure (rs, ([] : List RuleKey))
      let (rs₂, nameKey) ← rs₁.insertLexeme ext.schemaCompile fuel "name" (.text tool.name)
      let (rs₃, accD) ← match delimiter with
        | Option.some d => do
            let (r, k) ← OrderedLexemes.render d ext fuel rs₂
            pure (r, [k])
        | Option.none => pure (rs₂, ([] : List RuleKey))
      let (rs₄, argKey) ← match arguments with
        | .jsonObject =>
            rs₃.insertLexeme ext.schemaCompile fuel "parameters" (.jsonSchema tool.parameters)
      let (rs₅, accS) ← match suffix with
        | Option.some sfx => do
            let (r, k) ← OrderedLexemes.render sfx ext fuel rs₄
            pure (r, [k])
        | Option.none => pure (rs₄, ([] : List RuleKey))
      let acc := accP ++ [nameKey] ++ accD ++ [argKey] ++ accS
      let (rs₆, itemKey) := rs₅.insertSequence "tool_choice_item" acc
      let (rs₇, ks) ← ToolCall.renderAlternatives ext fuel pfx delimiter arguments suffix rest rs₆
      pure (rs₇, itemKey :: ks)

/-- `ToolCall::render` (src/render.rs lines 258-335). -/
def ToolCall.render (tc : ToolCall) (ext : RenderExternals) (fuel : Nat)
    (tools : List TemplateTool) (rs : Rules) : Res (Rules × RuleKey) :=
  match tc with
  | .jsonObject nameKey argumentKey =>
      let schemaChoices := tools.map (fun t => t.naiveJsonSchema nameKey argumentKey)
      let objectSchema := Json.obj [("anyOf", .arr schemaChoices)]
      rs.insertLexeme ext.schemaCompile fuel "tool_choice" (.jsonSchema objectSchema)
  | .jsonArray nameKey argumentKey =>
      let schemaChoices := tools.map (fun t => t.naiveJsonSchema nameKey argumentKey)
      let arraySchema := Json.obj
        [("type", .str "array"), ("items", .obj [("anyOf", .arr schemaChoices)])]
      rs.insertLexeme ext.schemaCompile fuel "tool_choice" (.jsonSchema arraySchema)
  | .namedParameters pfx delimiter arguments suffix => do
      let (rs₁, altKeys) ←
        ToolCall.renderAlternatives ext fuel pfx delimiter arguments suffix tools rs
      pure (rs₁.insertAlternative "tool_choices" altKeys)

/-- `ChatToolChoice::render` (src/render.rs lines 229-256). -/
def ChatToolChoice.render (choice : ChatToolChoice) (ext : RenderExternals) (fuel : Nat)
    (toolCall : ToolCall) (validatedTools : List TemplateTool) (rs : Rules) :
    Res (Rules × Option (RuleKey × Bool)) :=
  match choice with
  | .auto => do
      let (rs₁, k) ← toolCall.render ext fuel validatedTools rs
      let (rs₂, k₂) := rs₁.insertRepetition "tool_choice" k 0 (Option.some 1)
      pure (rs₂, Option.some (k₂, true))
  | .none => .ok (rs, Option.none)
  | .required => do
      let (rs₁, k) ← toolCall.render ext fuel validatedTools rs
      pure (rs₁, Option.some (k, false))
  | .function name =>
      match validatedTools.find? (fun t => t.name = name) with
      | Option.none => .err .chatToolChoice
      | Option.some selectedTool => do
          let (rs₁, k) ← toolCall.render ext fuel [selectedTool] rs
          pure (rs₁, Option.some (k, false))

/-- The `ToolCallsSection` wrapper inside `Acquiesce::render` (src/render.rs
lines 133-149): prefix, the tool-choice rule (wrapped in a `(0, None)`
repetition when parallel calls are enabled), then the optional suffix,
sequenced under `tool_choices`. -/
def sectionWrap (ext : RenderExternals) (fuel : Nat) (pfx : OrderedLexemes)
    (suffix : Option OrderedLexemes) (rs : Rules) (toolChoiceKey : RuleKey)
    (parallelToolCalls : Bool) : Res (Rules × RuleKey) := do
  let (rs₁, prefixKey) ← OrderedLexemes.render pfx ext fuel rs
  let (rs₂, tcKey) :=
    if parallelToolCalls then rs₁.insertRepetition "tool_choice" toolChoiceKey 0 Option.none
    else (rs₁, toolChoiceKey)
  match suffix with
  | Option.some sfx => do
      let (rs₃, suffixKey) ← OrderedLexemes.render sfx ext fuel rs₂
      pure (rs₃.insertSequence "tool_choices" [prefixKey, tcKey, suffixKey])
  | Option.none => pure (rs₂.insertSequence "tool_choices" [prefixKey, tcKey])

/-- The `match tool_calls` of `Acquiesce::render` (src/render.rs lines
123-157): resolve the tool choice and, for a section shape, wrap it. -/
def compileGrammar (ext : RenderExternals) (fuel : Nat) (toolCalls : ToolCalls)
    (validatedTools : List TemplateTool) (choice : ChatToolChoice)
    (parallelToolCalls : Bool) (rs : Rules) : Res (Rules × Option (RuleKey × Bool)) :=
  match toolCalls with
  | .toolCall tc => choice.render ext fuel tc validatedTools rs
  | .toolCallsSection pfx tc suffix => do
      let (rs₁, r) ← choice.render ext fuel tc validatedTools rs
      match r with
      | Option.none => pure (rs₁, Option.none)
      | Option.some (k, allowContent) => do
          let (rs₂, toolsRule) ← sectionWrap ext fuel pfx suffix rs₁ k parallelToolCalls
          pure (rs₂, Option.some (toolsRule, allowContent))

/-- The root assembly of `Acquiesce::render` (src/render.rs lines 159-175):
text lexeme, optional thinking wrap, optional free content, the tools
rule, sequenced under `root`. -/
def assembleRoot (ext : RenderExternals) (fuel : Nat) (thinking : Option Thinking)
    (allowContent mixed : Bool) (rs : Rules) (toolsRule : RuleKey) :
    Res (Rules × RuleKey) := do
  let (rs₁, textRule) ← rs.insertTextLexeme ext.schemaCompile fuel
  let (rs₂, accT) ← match thinking with
    | Option.some th => do
        let (ra, pk) ← OrderedLexemes.render th.pfx ext fuel rs₁
        let (rb, sk) ← OrderedLexemes.render th.suffix ext fuel ra
        pure (rb, [pk, textRule, sk])
    | Option.none => pure (rs₁, ([] : List RuleKey))
  let acc := accT ++ (if allowContent || mixed then [textRule] else []) ++ [toolsRule]
  pure (rs₂.insertSequence "root" acc)

/-- `Acquiesce::render` (src/render.rs lines 38-189). -/
def Config.render {Msg : Type} (cfg : Config Msg) (ext : RenderExternals) (fuel : Nat)
    (messages : List Msg) (tools : List ChatTool) (toolChoice : ChatToolChoice)
    (parallelToolCalls mixedContentToolCalls : Bool) (gs : GrammarSyntax) :
    Res RenderResult :=
  match cfg with
  | .harmony => .ok ⟨"", Option.none⟩
  | .components chatTemplate thinking toolCalls =>
      let shortCircuit : Res RenderResult :=
        match chatTemplate messages [] with
        | .ok prompt => .ok ⟨prompt, Option.none⟩
        | .error e => .err (.template e)
      match toolCalls with
      | Option.none => shortCircuit
      | Option.some tc =>
          if tools.isEmpty then shortCircuit
          else if toolChoice = ChatToolChoice.none then shortCircuit
          else
            match validateTools ext tools with
            | .error e => .err e
            | .ok validatedTools =>
                match chatTemplate messages validatedTools with
                | .error e => .err (.template e)
                | .ok prompt => do
                    let (rs₁, opt) ← compileGrammar ext fuel tc validatedTools toolChoice
                      parallelToolCalls (Rules.new gs)
                    match opt with
                    | Option.none => pure ⟨prompt, Option.none⟩
                    | Option.some (toolsRule, allowContent) => do
                        let (rs₂, root) ← assembleRoot ext fuel thinking allowContent
                          mixedContentToolCalls rs₁ toolsRule
                        pure ⟨prompt, Option.some (rs₂.resolve root)⟩

/-- Outcome of `Acquiesce::parser` (src/parse.rs lines 77-91): `None` when
the envelope is Harmony or has no tool-call shape; when a shape is present
every branch of `ToolCall::parser` is `todo!()`, so the call panics
instead of producing a parser. -/
inductive ParserOutcome where
  | noParser
  | panicsUnimplemented
deriving DecidableEq, Repr

/-- `Acquiesce::parser` (src/parse.rs lines 77-91). -/
def Config.parserOutcome {Msg : Type} : Config Msg → ParserOutcome
  | .components _ _ Option.none => .noParser
  | .components _ _ (Option.some _) => .panicsUnimplemented
  | .harmony => .noParser

/-! ## Part D: auxiliary definitions for the claim statements -/

def Res.isOk {α : Type} : Res α → Bool
  | .ok _ => true
  | _ => false

mutual
/-- Structural equality test on JSON values. -/
def Json.beq : Json → Json → Bool
  | .null, .null => true
  | .bool a, .bool b => a == b
  | .num a, .num b => a == b
  | .str a, .str b => a == b
  | .arr a, .arr b => Json.beqList a b
  | .obj a, .obj b => Json.beqObj a b
  | _, _ => false

def Json.beqList : List Json → List Json → Bool
  | [], [] => true
  | a :: as, b :: bs => Json.beq a b && Json.beqList as bs
  | _, _ => false

def Json.beqObj : List (String × Json) → List (String × Json) → Bool
  | [], [] => true
  | (k, v) :: as, (k', v') :: bs => k == k' && Json.beq v v' && Json.beqObj as bs
  | _, _ => false
end

/-- Equality test on optional JSON values. -/
def Json.obeq : Option Json → Option Json → Bool
  | Option.none, Option.none => true
  | Option.some a, Option.some b => Json.beq a b
  | _, _ => false

/-- The buffered value of an in-flight JSON-string consumer state. -/
def PartialJson.bufferOf : PartialJson → String
  | .str js => js.buffer
  | _ => ""

/-- Modelled from the spec: the repetition count admitted under the
standard repetition conventions (spec §4.3/§6) for the bounds
`insert_repetition` encodes — at least `start` repetitions, and at most
`stop` when a bound is given (`(0, None)` is `*`, unbounded). -/
def repMatches (start : Nat) (stop : Option Nat) (n : Nat) : Bool :=
  start ≤ n &&
    (match stop with
     | Option.none => true
     | Option.some s => n ≤ s)

/-- Lower disambiguators of a present logical name are present (an
invariant of tables built by `insert_rule`). -/
def Contig (m : List (RuleKey × String)) : Prop :=
  ∀ (name : String) (i j : Nat), j ≤ i →
    (findRule m (name, i)).isSome = true → (findRule m (name, j)).isSome = true

/-- Under one logical name, each body is held by at most one key. -/
def BodyUniq (m : List (RuleKey × String)) : Prop :=
  ∀ (name : String) (i j : Nat) (v : String),
    findRule m (name, i) = some v → findRule m (name, j) = some v → i = j

/-- A rule table reached from the empty table by a sequence of
`insert_rule` calls — the shape of one compilation's insertions. -/
def buildTable (ops : List (String × String)) : Rules :=
  ops.foldl (fun rs op => (rs.insertRule op.1 op.2).1) (Rules.new .lark)

/-- Every declared dependency of every primitive rule in the table is
present under its name. -/
def primitiveDepsPresent (rs : Rules) : Bool :=
  rs.rules.all fun e =>
    match lookupPrimitiveRule e.1.1 with
    | Option.some (_, deps) => deps.all (fun d => rs.hasName d)
    | Option.none => true

/-- The valid JSON document `"A"`, character by character. -/
def c1Document : List Char := ['"', '\\', 'u', '0', '0', '4', '1', '"']

/-- The C2 scenario input `{"a":1, "b":"hel`, character by character. -/
def c2Input : List Char := ("\x7b\"a\":1, \"b\":\"hel").data

/-- The prefix `"\uD83D` of a surrogate-pair escape. -/
def c3SurrogatePrefix : List Char := ['"', '\\', 'u', 'D', '8', '3', 'D']

/-- The malformed escape `"\q`. -/
def c3BadEscape : List Char := ['"', '\\', 'q']

/-- Externals for runs in which every validator passes and the GBNF
schema compiler is never consulted. -/
def trivialExternals : RenderExternals :=
  ⟨fun _ => Option.none, fun _ => Option.none, fun _ => Option.none,
   fun _ => Except.error "schema compiler unused in this run"⟩

/-- A tool whose name coincides with the section prefix text. -/
def c4Tool : TemplateTool := ⟨"foo", Option.none, Json.obj []⟩

/-- A tool-calls section whose prefix is the text `foo`. -/
def c4ToolCalls : ToolCalls :=
  .toolCallsSection [Lexeme.text "foo"]
    (.namedParameters Option.none Option.none .jsonObject Option.none) Option.none

/-- One concrete Lark compilation: required tool choice over `c4Tool`. -/
def c4Run : Res (Rules × Option (RuleKey × Bool)) :=
  compileGrammar trivialExternals 0 c4ToolCalls [c4Tool] .required false (Rules.new .lark)

/-- The rule table this compilation produced. -/
def c4Table : List (RuleKey × String) :=
  match c4Run with
  | .ok (rs, _) => rs.rules
  | _ => []

/-- A function tool named `add` with one integer parameter. -/
def c6Tool : TemplateTool :=
  ⟨"add", Option.none, Json.obj [("a", Json.obj [("type", Json.str "integer")])]⟩

/-- The naive per-tool schema the compiler emits for `c6Tool` with
`name_key = "name"`, `argument_key = "arguments"`. -/
def c6Schema : Json := c6Tool.naiveJsonSchema "name" "arguments"

/-- The `JsonObject` tool-call rule compiled for `[c6Tool]` under Lark. -/
def c6Run : Res (Rules × RuleKey) :=
  ToolCall.render (.jsonObject "name" "arguments") trivialExternals 0 [c6Tool]
    (Rules.new .lark)

/-- A constant chat template over opaque unit messages. -/
def constTemplate (prompt : String) : List Unit → List TemplateTool → Except String String :=
  fun _ _ => .ok prompt

/-- A function tool wrapped as a `ChatTool`. -/
def c8ChatTool : ChatTool := .function ⟨"add", Option.none, Json.obj []⟩

/-- A bare named-parameters tool-call shape. -/
def c8ToolCalls : ToolCalls :=
  .toolCall (.namedParameters Option.none Option.none .jsonObject Option.none)

theorem findRule_mem {m : List (RuleKey × String)} {k : RuleKey} {v : String}
    (h : findRule m k = some v) : (k, v) ∈ m := by
  induction m with
  | nil => simp [findRule] at h
  | cons e rest ih =>
      rw [findRule] at h
      split at h
      · next heq =>
          injection h with h
          subst h
          have hek : (k, e.2) = e := by rw [← heq]
          rw [hek]
          exact List.mem_cons_self _ _
      · exact List.mem_cons_of_mem _ (ih h)

theorem countP_lt_of_mem {α : Type} {p q : α → Bool} {l : List α} {x : α}
    (hx : x ∈ l) (hq : q x = true) (hp : p x = false)
    (himp : ∀ a, p a = true → q a = true) :
    l.countP p < l.countP q := by
  induction l with
  | nil => simp at hx
  | cons e rest ih =>
      have hrestle : rest.countP p ≤ rest.countP q := by
        rw [List.countP_eq_length_filter, List.countP_eq_length_filter]
        exact (List.monotone_filter_right rest himp).length_le
      simp only [List.countP_cons]
      rcases List.mem_cons.mp hx with he | hrest
      · subst he
        rw [hp, hq]
        norm_num
        omega
      · have hlt := ih hrest
        have hone : (if p e = true then 1 else 0) ≤ (if q e = true then 1 else 0) := by
          by_cases hpe : p e = true
          · rw [if_pos hpe, if_pos (himp e hpe)]
          · rw [if_neg hpe]
            omega
        omega

theorem countGe_succ_lt {m : List (RuleKey × String)} {name : String} {v : String} {c : Nat}
    (h : ((name, c), v) ∈ m) : countGe m name (c + 1) < countGe m name c := by
  refine countP_lt_of_mem h (by simp) (by simp) ?_
  intro a ha
  simp only [Bool.and_eq_true, decide_eq_true_eq] at ha ⊢
  exact ⟨ha.1, Nat.le_of_succ_le ha.2⟩

theorem findRule_append_left {m : List (RuleKey × String)} {k : RuleKey} {v : String}
    (e : RuleKey × String) (h : findRule m k = some v) : findRule (m ++ [e]) k = some v := by
  induction m with
  | nil => simp [findRule] at h
  | cons e' rest ih =>
      simp only [findRule] at h
      rw [List.cons_append]
      simp only [findRule]
      split at h
      · next heq => rw [if_pos heq]; exact h
      · next hne => rw [if_neg hne]; exact ih h

theorem findRule_append_none {m : List (RuleKey × String)} {k : RuleKey}
    (e : RuleKey × String) (h : findRule m k = none) :
    findRule (m ++ [e]) k = if e.1 = k then some e.2 else none := by
  induction m with
  | nil => simp [findRule]
  | cons e' rest ih =>
      simp only [findRule] at h
      split at h
      · simp at h
      · next hne =>
          rw [List.cons_append]
          simp only [findRule]
          rw [if_neg hne]
          exact ih h

theorem insertRuleFromAux_spec {m : List (RuleKey × String)} {name val : String} :
    ∀ (fuel c : Nat), countGe m name c < fuel →
      findRule (insertRuleFromAux fuel m name val c).1
          (insertRuleFromAux fuel m name val c).2 = some val ∧
        (insertRuleFromAux fuel m name val c).2.1 = name ∧
        c ≤ (insertRuleFromAux fuel m name val c).2.2 := by
  intro fuel
  induction fuel with
  | zero => intro c h; omega
  | succ fuel ih =>
      intro c h
      cases hfind : findRule m (name, c) with
      | none =>
          simp only [insertRuleFromAux, hfind]
          refine ⟨?_, by simp, by simp⟩
          rw [findRule_append_none _ hfind]
          simp
      | some v =>
          simp only [insertRuleFromAux, hfind]
          by_cases hv : v = val
          · subst hv
            rw [if_pos rfl]
            exact ⟨hfind, rfl, le_refl _⟩
          · rw [if_neg hv]
            have hlt := countGe_succ_lt (findRule_mem hfind)
            have := ih (c + 1) (by omega)
            exact ⟨this.1, this.2.1, Nat.le_of_succ_le this.2.2⟩

theorem insertRuleFromAux_walk {m : List (RuleKey × String)} {name val : String} :
    ∀ (fuel c : Nat), countGe m name c < fuel →
      ∀ j, c ≤ j → j < (insertRuleFromAux fuel m name val c).2.2 →
        ∃ vj, findRule m (name, j) = some vj ∧ vj ≠ val := by
  intro fuel
  induction fuel with
  | zero => intro c h; omega
  | succ fuel ih =>
      intro c h j hcj hj
      cases hfind : findRule m (name, c) with
      | none => simp only [insertRuleFromAux, hfind] at hj; omega
      | some v =>
          simp only [insertRuleFromAux, hfind] at hj
          by_cases hv : v = val
          · rw [if_pos hv] at hj; simp at hj; omega
          · rw [if_neg hv] at hj
            have hlt := countGe_succ_lt (findRule_mem hfind)
            by_cases hjc : j = c
            · subst hjc; exact ⟨v, hfind, hv⟩
            · exact ih (c + 1) (by omega) j (by omega) hj

theorem insertRuleFromAux_shape {m : List (RuleKey × String)} {name val : String} :
    ∀ (fuel c : Nat), countGe m name c < fuel →
      ((insertRuleFromAux fuel m name val c).1 = m ∧
        findRule m (insertRuleFromAux fuel m name val c).2 = some val) ∨
      ((insertRuleFromAux fuel m name val c).1
          = m ++ [((insertRuleFromAux fuel m name val c).2, val)] ∧
        findRule m (insertRuleFromAux fuel m name val c).2 = none) := by
  intro fuel
  induction fuel with
  | zero => intro c h; omega
  | succ fuel ih =>
      intro c h
      cases hfind : findRule m (name, c) with
      | none => simp only [insertRuleFromAux, hfind]; exact Or.inr ⟨by simp, trivial⟩
      | some v =>
          simp only [insertRuleFromAux, hfind]
          by_cases hv : v = val
          · subst hv
            rw [if_pos rfl]
            exact Or.inl ⟨rfl, hfind⟩
          · rw [if_neg hv]
            have hlt := countGe_succ_lt (findRule_mem hfind)
            exact ih (c + 1) (by omega)

theorem insertRuleFromAux_preserves {m : List (RuleKey × String)} {name val : String}
    (fuel c : Nat) (h : countGe m name c < fuel) (k' : RuleKey)
    (hk : k' ≠ (insertRuleFromAux fuel m name val c).2) :
    findRule (insertRuleFromAux fuel m name val c).1 k' = findRule m k' := by
  rcases insertRuleFromAux_shape fuel c h with ⟨h1, _⟩ | ⟨h1, _⟩
  · rw [h1]
  · rw [h1]
    cases hm : findRule m k' with
    | none => rw [findRule_append_none _ hm, if_neg (fun he => hk he.symm)]
    | some v' => rw [findRule_append_left _ hm]

theorem insertRuleFromAux_mono {m : List (RuleKey × String)} {name val : String}
    (fuel c : Nat) (h : countGe m name c < fuel) (k' : RuleKey) (v' : String)
    (hfound : findRule m k' = some v') :
    findRule (insertRuleFromAux fuel m name val c).1 k' = some v' := by
  by_cases hk : k' = (insertRuleFromAux fuel m name val c).2
  · rcases insertRuleFromAux_shape fuel c h with ⟨h1, h2⟩ | ⟨h1, h2⟩
    · rw [h1]; exact hfound
    · rw [← hk] at h2; rw [h2] at hfound; cases hfound
  · rw [insertRuleFromAux_preserves fuel c h k' hk]; exact hfound

theorem insertRuleFromAux_stop {m : List (RuleKey × String)} {name val : String} :
    ∀ (fuel c d : Nat), countGe m name c < fuel → c ≤ d →
      findRule m (name, d) = some val →
      (∀ j, c ≤ j → j < d → ∃ vj, findRule m (name, j) = some vj ∧ vj ≠ val) →
      insertRuleFromAux fuel m name val c = (m, (name, d)) := by
  intro fuel
  induction fuel with
  | zero => intro c d h; omega
  | succ fuel ih =>
      intro c d h hcd hd hblock
      cases hfind : findRule m (name, c) with
      | none =>
          simp only [insertRuleFromAux, hfind]
          by_cases hcd' : c = d
          · subst hcd'; rw [hfind] at hd; cases hd
          · rcases hblock c (le_refl _) (by omega) with ⟨vj, hvj, _⟩
            rw [hfind] at hvj; cases hvj
      | some v =>
          simp only [insertRuleFromAux, hfind]
          by_cases hv : v = val
          · rw [if_pos hv]
            by_cases hcd' : c = d
            · rw [hcd']
            · rcases hblock c (le_refl _) (by omega) with ⟨vj, hvj, hvjne⟩
              rw [hfind] at hvj
              injection hvj with hvj
              subst hvj
              exact absurd hv hvjne
          · rw [if_neg hv]
            have hcd' : c ≠ d := by
              intro he; subst he; rw [hfind] at hd; injection hd with hd; exact hv hd
            have hlt := countGe_succ_lt (findRule_mem hfind)
            exact ih (c + 1) d (by omega) (by omega) hd
              (fun j h1 h2 => hblock j (by omega) h2)

theorem insertRuleFrom_spec (m : List (RuleKey × String)) (name val : String) (c : Nat) :
    findRule (insertRuleFrom m name val c).1 (insertRuleFrom m name val c).2 = some val ∧
      (insertRuleFrom m name val c).2.1 = name ∧ c ≤ (insertRuleFrom m name val c).2.2 :=
  insertRuleFromAux_spec _ c (Nat.lt_succ_self _)

theorem insertRuleFrom_mono (m : List (RuleKey × String)) (name val : String) (c : Nat)
    (k' : RuleKey) (v' : String) (hfound : findRule m k' = some v') :
    findRule (insertRuleFrom m name val c).1 k' = some v' :=
  insertRuleFromAux_mono _ c (Nat.lt_succ_self _) k' v' hfound

theorem insertRuleFrom_idem (m : List (RuleKey × String)) (name val : String) :
    insertRuleFrom (insertRuleFrom m name val 0).1 name val 0 = insertRuleFrom m name val 0 := by
  have hspec := insertRuleFrom_spec m name val 0
  have hwalk := @insertRuleFromAux_walk m name val (countGe m name 0 + 1) 0
    (Nat.lt_succ_self _)
  have hkey : (insertRuleFrom m name val 0).2
      = (name, (insertRuleFrom m name val 0).2.2) := Prod.ext hspec.2.1 rfl
  have hr : insertRuleFrom m name val 0
      = ((insertRuleFrom m name val 0).1, (name, (insertRuleFrom m name val 0).2.2)) :=
    Prod.ext rfl hkey
  conv_rhs => rw [hr]
  rw [insertRuleFrom]
  refine insertRuleFromAux_stop _ 0 (insertRuleFrom m name val 0).2.2
    (Nat.lt_succ_self _) (Nat.zero_le _) ?_ ?_
  · rw [← hkey]
    exact hspec.1
  · intro j h0 hj
    rcases hwalk j h0 hj with ⟨vj, hvj, hvjne⟩
    exact ⟨vj, insertRuleFrom_mono m name val 0 _ _ hvj, hvjne⟩

theorem Rules.insertRule_found (rs : Rules) (key val : String) :
    findRule (rs.insertRule key val).1.rules (rs.insertRule key val).2 = some val :=
  (insertRuleFrom_spec rs.rules key val 0).1

theorem Rules.insertRule_mono (rs : Rules) (key val : String) (k' : RuleKey) (v' : String)
    (h : findRule rs.rules k' = some v') :
    findRule (rs.insertRule key val).1.rules k' = some v' :=
  insertRuleFrom_mono rs.rules key val 0 k' v' h

theorem Rules.insertRule_name (rs : Rules) (key val : String) :
    (rs.insertRule key val).2.1 = key :=
  (insertRuleFrom_spec rs.rules key val 0).2.1

theorem Rules.insertRule_stx (rs : Rules) (key val : String) :
    (rs.insertRule key val).1.stx = rs.stx := rfl

theorem Rules.insertRule_idem (rs : Rules) (key val : String) :
    ((rs.insertRule key val).1).insertRule key val = rs.insertRule key val := by
  have h := insertRuleFrom_idem rs.rules key val
  unfold Rules.insertRule
  simp only [h]

-- invariants
theorem contig_empty : Contig [] := by
  intro name i j hji hi
  simp [findRule] at hi

theorem bodyUniq_empty : BodyUniq [] := by
  intro name i j v hi
  simp [findRule] at hi

theorem contig_insert {m : List (RuleKey × String)} (hC : Contig m) (name val : String) :
    Contig (insertRuleFrom m name val 0).1 := by
  rcases @insertRuleFromAux_shape m name val (countGe m name 0 + 1) 0
      (Nat.lt_succ_self _) with ⟨h1, _⟩ | ⟨h1, hnone⟩
  · rw [insertRuleFrom] at *
    rw [h1]; exact hC
  · have hwalk := @insertRuleFromAux_walk m name val (countGe m name 0 + 1) 0
      (Nat.lt_succ_self _)
    have hname := (@insertRuleFromAux_spec m name val (countGe m name 0 + 1) 0
      (Nat.lt_succ_self _)).2.1
    rw [insertRuleFrom] at *
    intro name' i j hji hi
    rw [h1] at hi ⊢
    set K := (insertRuleFromAux (countGe m name 0 + 1) m name val 0).2 with hKdef
    have hKnk : K = (name, K.2) := Prod.ext hname rfl
    cases hm : findRule m (name', i) with
    | some v =>
        have hjsome := hC name' i j hji (by rw [hm]; rfl)
        cases hmj : findRule m (name', j) with
        | some w => rw [findRule_append_left _ hmj]; rfl
        | none => rw [hmj] at hjsome; simp at hjsome
    | none =>
        rw [findRule_append_none _ hm] at hi
        by_cases hKe : K = (name', i)
        · have hn : name' = name := by
            have h2 := congrArg Prod.fst hKe
            rw [hname] at h2
            exact h2.symm
          have hi' : i = K.2 := (congrArg Prod.snd hKe).symm
          rw [hn] at hi ⊢
          by_cases hjK : j = K.2
          · rw [hjK]
            cases hmj : findRule m (name, K.2) with
            | some w => rw [findRule_append_left _ hmj]; rfl
            | none =>
                rw [findRule_append_none _ hmj, if_pos hKnk]
                rfl
          · have hjlt : j < K.2 := by omega
            rcases hwalk j (Nat.zero_le _) hjlt with ⟨vj, hvj, _⟩
            rw [findRule_append_left _ hvj]
            rfl
        · rw [if_neg hKe] at hi
          simp at hi

theorem bodyUniq_insert {m : List (RuleKey × String)} (hC : Contig m) (hB : BodyUniq m)
    (name val : String) : BodyUniq (insertRuleFrom m name val 0).1 := by
  rcases @insertRuleFromAux_shape m name val (countGe m name 0 + 1) 0
      (Nat.lt_succ_self _) with ⟨h1, _⟩ | ⟨h1, hnone⟩
  · rw [insertRuleFrom] at *
    rw [h1]; exact hB
  · have hwalk := @insertRuleFromAux_walk m name val (countGe m name 0 + 1) 0
      (Nat.lt_succ_self _)
    have hname := (@insertRuleFromAux_spec m name val (countGe m name 0 + 1) 0
      (Nat.lt_succ_self _)).2.1
    rw [insertRuleFrom] at *
    intro name' i j v hi hj
    rw [h1] at hi hj
    set K := (insertRuleFromAux (countGe m name 0 + 1) m name val 0).2 with hKdef
    have hKnk : K = (name, K.2) := Prod.ext hname rfl
    have no_other : ∀ (a : Nat), findRule m (name, a) = some val → False := by
      intro a ha
      rcases Nat.lt_trichotomy a K.2 with halt | haeq | hagt
      · rcases hwalk a (Nat.zero_le _) halt with ⟨vj, hvj, hvjne⟩
        rw [ha] at hvj
        injection hvj with hvj
        exact hvjne hvj.symm
      · subst haeq
        rw [hKnk] at hnone
        rw [ha] at hnone
        cases hnone
      · have hsome := hC name a K.2 (Nat.le_of_lt hagt) (by rw [ha]; rfl)
        rw [hKnk] at hnone
        rw [hnone] at hsome
        simp at hsome
    have key_case : ∀ (a : Nat), findRule (m ++ [(K, val)]) (name', a) = some v →
        findRule m (name', a) = some v ∨ (K = (name', a) ∧ v = val) := by
      intro a ha
      cases hma : findRule m (name', a) with
      | some w =>
          rw [findRule_append_left _ hma] at ha
          exact Or.inl ha
      | none =>
          rw [findRule_append_none _ hma] at ha
          by_cases hKe : K = (name', a)
          · rw [if_pos hKe] at ha
            injection ha with ha
            exact Or.inr ⟨hKe, ha.symm⟩
          · rw [if_neg hKe] at ha; cases ha
    rcases key_case i hi with hmi | ⟨hKi, hvval⟩
    · rcases key_case j hj with hmj | ⟨hKj, hvval⟩
      · exact hB name' i j v hmi hmj
      · exfalso
        have hn' : name' = name := by
          have h2 := congrArg Prod.fst hKj
          rw [hname] at h2
          exact h2.symm
        subst hn'
        subst hvval
        exact no_other i hmi
    · rcases key_case j hj with hmj | ⟨hKj, _⟩
      · exfalso
        have hn' : name' = name := by
          have h2 := congrArg Prod.fst hKi
          rw [hname] at h2
          exact h2.symm
        subst hn'
        subst hvval
        exact no_other j hmj
      · have hik := congrArg Prod.snd hKi
        have hjk := congrArg Prod.snd hKj
        simp at hik hjk
        omega

theorem buildTable_inv (ops : List (String × String)) :
    Contig (buildTable ops).rules ∧ BodyUniq (buildTable ops).rules := by
  suffices h : ∀ (ops : List (String × String)) (rs : Rules),
      Contig rs.rules → BodyUniq rs.rules →
      Contig (ops.foldl (fun rs op => (rs.insertRule op.1 op.2).1) rs).rules ∧
      BodyUniq (ops.foldl (fun rs op => (rs.insertRule op.1 op.2).1) rs).rules by
    exact h ops (Rules.new .lark) contig_empty bodyUniq_empty
  intro ops
  induction ops with
  | nil => intro rs hC hB; exact ⟨hC, hB⟩
  | cons op rest ih =>
      intro rs hC hB
      simp only [List.foldl_cons]
      exact ih _ (contig_insert hC op.1 op.2) (bodyUniq_insert hC hB op.1 op.2)

theorem Res.bind_ok {α β : Type} (a : α) (f : α → Res β) :
    (Res.ok a : Res α) >>= f = f a := rfl

theorem Rules.insertLexeme_lark (rs : Rules) (compile : Json → Except String Schema)
    (fuel : Nat) (key : String) (lx : Lexeme) (h : rs.stx = .lark) :
    rs.insertLexeme compile fuel key lx
      = .ok (rs.insertRule (rustToUppercase key) (larkLexemeRule lx)) := by
  unfold Rules.insertLexeme
  rw [h]

theorem orderedRenderKeys_lark (ext : RenderExternals) (fuel : Nat) :
    ∀ (ol : OrderedLexemes) (rs : Rules), rs.stx = .lark →
      ∃ rs' ks, OrderedLexemes.renderKeys ext fuel ol rs = .ok (rs', ks) ∧
        rs'.stx = .lark ∧
        (∀ (k' : RuleKey) (v' : String), findRule rs.rules k' = some v' →
          findRule rs'.rules k' = some v') := by
  intro ol
  induction ol with
  | nil => intro rs h; exact ⟨rs, [], rfl, h, fun _ _ hv => hv⟩
  | cons lx rest ih =>
      intro rs h
      rcases ih (rs.insertRule (rustToUppercase "sequence") (larkLexemeRule lx)).1
          (by rw [Rules.insertRule_stx]; exact h) with ⟨rs', ks, heq, hstx, hmono⟩
      refine ⟨rs', (rs.insertRule (rustToUppercase "sequence") (larkLexemeRule lx)).2 :: ks,
        ?_, hstx, ?_⟩
      · simp only [OrderedLexemes.renderKeys]
        rw [Rules.insertLexeme_lark _ _ _ _ _ h]
        rw [Res.bind_ok]
        rw [heq, Res.bind_ok]
        rfl
      · intro k' v' hv
        exact hmono k' v' (Rules.insertRule_mono rs _ _ k' v' hv)

theorem orderedRender_lark (ol : OrderedLexemes) (ext : RenderExternals) (fuel : Nat)
    (rs : Rules) (h : rs.stx = .lark) :
    ∃ rs' k, OrderedLexemes.render ol ext fuel rs = .ok (rs', k) ∧ rs'.stx = .lark ∧
      k.1 = "sequence" ∧
      (∀ (k' : RuleKey) (v' : String), findRule rs.rules k' = some v' →
        findRule rs'.rules k' = some v') := by
  rcases orderedRenderKeys_lark ext fuel ol rs h with ⟨rs₁, ks, heq, hstx, hmono⟩
  refine ⟨(rs₁.insertSequence "sequence" ks).1, (rs₁.insertSequence "sequence" ks).2,
    ?_, ?_, ?_, ?_⟩
  · unfold OrderedLexemes.render
    rw [heq, Res.bind_ok]
    rfl
  · exact hstx
  · exact Rules.insertRule_name rs₁ "sequence" (String.intercalate " " (ks.map keyStr))
  · intro k' v' hv
    exact Rules.insertRule_mono rs₁ _ _ k' v' (hmono k' v' hv)

theorem Res.err_bind {α β : Type} (e : RenderError) (f : α → Res β) :
    (Res.err e : Res α) >>= f = Res.err e := rfl

/-- C1: feeding the valid JSON document `"\u0041"` character by character
to a fresh consumer returns `Rejected` at its closing quote: the
`HexDigits` state is never reset to `Opened` after a completed escape, so
the quote is rejected as "valid hex digits for unicode". -/
theorem c1_valid_document_prefix_rejected :
    PartialJson.resultsFresh c1Document
      = [.consumed, .omitted, .omitted, .omitted, .omitted, .omitted, .consumed,
         .rejected '"' "valid hex digits for unicode"] := by decide

/-- C2 counterexample: after feeding `{"a":1, "b":"hel`, the `Display`
rendering is not the claimed `{"a":1,"b":"hel"}` — no provisional closing
quote or brace is emitted. -/
theorem c2_counterexample_no_autoclose :
    (PartialJson.runFresh c2Input).render ≠ "\x7b\"a\":1,\"b\":\"hel\"\x7d" := by decide

/-- C2 (amended): after feeding `{"a":1, "b":"hel`, the `Display` rendering
equals `{"a":1,"b":"hel` — accepted entries followed by the in-flight
key/value, with terminators emitted only by `Closed` states; the in-flight
string is not provisionally closed. -/
theorem c2_amended_rendering :
    (PartialJson.runFresh c2Input).render = "\x7b\"a\":1,\"b\":\"hel" := by decide

/-- C3: `\u0041` does contribute `A` to the buffer, but the consumer then
rejects any further string character (the state stays `HexDigits`); the
surrogate pair `\uD83D…` is rejected at its fourth hex digit because
`char::from_u32` refuses surrogate code points; the malformed escape `\q`
is rejected. -/
theorem c3_unicode_escape_evaluation :
    (PartialJson.runFresh (c1Document.take 7)).bufferOf = "A" ∧
    ((PartialJson.runFresh (c1Document.take 7)).consumeChar '"').2
      = .rejected '"' "valid hex digits for unicode" ∧
    (PartialJson.resultsFresh c3SurrogatePrefix).getLast?
      = some (.rejected 'D' "a valid unicode code point") ∧
    (PartialJson.resultsFresh c3BadEscape).getLast?
      = some (.rejected 'q' "a valid json escape character") := by decide

/-- C4 counterexample: in one concrete compilation (Lark syntax, a section
whose prefix text equals the single tool's name), the finished table maps
the two distinct keys `NAME0` and `SEQUENCE0` to the same body `"foo"`, so
a rule body does not determine a unique rule key. -/
theorem c4_counterexample_two_keys_one_body :
    Res.isOk c4Run = true ∧
    findRule c4Table ("NAME", 0) = some "\"foo\"" ∧
    findRule c4Table ("SEQUENCE", 0) = some "\"foo\"" ∧
    (("NAME", 0) : RuleKey) ≠ ("SEQUENCE", 0) := by decide

/-- C4 (amended): inserting a rule with the same logical name and the same
body twice returns the same `RuleKey` and leaves the table unchanged, and
during one compilation (any sequence of `insert_rule` calls) there is, for
every logical name and body, at most one disambiguator — bodies are
de-duplicated per logical name, not globally. -/
theorem c4_amended_per_name_dedup :
    (∀ (ops : List (String × String)) (name val : String),
        ((buildTable ops).insertRule name val).1.insertRule name val
          = (buildTable ops).insertRule name val) ∧
    (∀ (ops : List (String × String)) (name : String) (i j : Nat) (v : String),
        findRule (buildTable ops).rules (name, i) = some v →
        findRule (buildTable ops).rules (name, j) = some v → i = j) := by
  constructor
  · intro ops name val
    exact Rules.insertRule_idem (buildTable ops) name val
  · intro ops name i j v hi hj
    exact (buildTable_inv ops).2 name i j v hi hj

theorem c4_amended_per_name_dedup_witness :
    ((buildTable [("a", "x")]).insertRule "a" "x").1.insertRule "a" "x"
      = (buildTable [("a", "x")]).insertRule "a" "x" ∧ (0 : Nat) = 0 :=
  ⟨c4_amended_per_name_dedup.1 [("a", "x")] "a" "x",
   c4_amended_per_name_dedup.2 [("a", "x")] "a" 0 0 "x" (by decide) (by decide)⟩

/-- C5 counterexample: `insert_schema` on a `$ref` node returns the bare
final segment as a rule key without inserting anything, so the key it
hands to its caller — which the caller embeds in rule bodies — is absent
from the table. -/
theorem c5_counterexample_ref_key_dangling :
    Rules.insertSchemaF 16 (Rules.new .gbnf) "tool_choice" (.ref "#/$defs/foo")
      = .ok (Rules.new .gbnf, ("foo", 0)) ∧
    findRule (Rules.new .gbnf).rules ("foo", 0) = none := by
  constructor
  · rw [Rules.insertSchemaF.eq_def]
    rfl
  · rfl

/-- C5 (amended): every rule key returned by `insert_rule` (hence by the
sequence/alternative/repetition/lexeme combinators built on it) is bound
in the resulting table, bindings persist under further insertions, and the
terminating primitive rules are inserted together with their declared
dependency closure — keys produced for JSON-schema `$ref` references are
the exception: they are returned without being defined. -/
theorem c5_amended_closure :
    (∀ (rs : Rules) (key val : String),
        findRule (rs.insertRule key val).1.rules (rs.insertRule key val).2 = some val) ∧
    (∀ (rs : Rules) (key val : String) (k' : RuleKey) (v' : String),
        findRule rs.rules k' = some v' →
        findRule (rs.insertRule key val).1.rules k' = some v') ∧
    ((["boolean", "integer", "number", "string", "char", "null", "space",
       "decimal-part", "integral-part"].all fun nm =>
        match Rules.insertPrimitiveF 16 (Rules.new .gbnf) nm with
        | .ok (rs, k) => k = (nm, 0) && rs.hasName nm && primitiveDepsPresent rs
        | _ => false) = true) := by
  refine ⟨Rules.insertRule_found, ?_, by decide⟩
  intro rs key val k' v' h
  exact Rules.insertRule_mono rs key val k' v' h

theorem c5_amended_closure_witness :
    findRule (((Rules.new .lark).insertRule "a" "x").1.insertRule "b" "y").1.rules
      ("a", 0) = some "x" :=
  c5_amended_closure.2.1 ((Rules.new .lark).insertRule "a" "x").1 "b" "y" ("a", 0) "x"
    (by decide)

/-- C6: the `JsonObject` tool-call rule is one `anyOf` JSON-schema lexeme
with one alternative per tool, but each alternative enumerates the
`name_key` parameter (the literal string `name`) instead of the tool's
name, and its `required` list sits inside `properties` instead of at the
top level of the schema. -/
theorem c6_naive_schema_evaluation :
    c6Run = .ok ((Rules.new .lark).insertRule "TOOL_CHOICE"
      (larkJsonSchema (Json.obj [("anyOf", Json.arr [c6Schema])]))) ∧
    Json.lookup c6Schema "required" = none ∧
    ((Json.lookup c6Schema "properties").bind (fun p => Json.lookup p "required"))
      = some (.arr [.str "name", .str "arguments"]) ∧
    ((Json.lookup c6Schema "properties").bind (fun p => Json.lookup p "name")).bind
        (fun n => Json.lookup n "enum")
      = some (.arr [.str "name"]) ∧
    Json.obeq
      (((Json.lookup c6Schema "properties").bind (fun p => Json.lookup p "name")).bind
        (fun n => Json.lookup n "enum"))
      (some (.arr [.str "add"])) = false := by
  refine ⟨rfl, rfl, rfl, rfl, by decide⟩

/-- C7: for a `Components` envelope, an empty tool list, a `None` tool
choice, or an absent `tool_calls` shape short-circuits `render`: the
result is the template rendered with no tools and no grammar (and
`RenderResult` carries no parser; `Acquiesce::parser` returns `None` for
an envelope without tool calls). -/
theorem c7_short_circuit_no_grammar :
    ∀ {Msg : Type} (chatTemplate : List Msg → List TemplateTool → Except String String)
      (thinking : Option Thinking) (toolCalls : Option ToolCalls) (ext : RenderExternals)
      (fuel : Nat) (messages : List Msg) (tools : List ChatTool)
      (toolChoice : ChatToolChoice) (p mx : Bool) (gs : GrammarSyntax),
      (tools = [] ∨ toolChoice = ChatToolChoice.none ∨ toolCalls = Option.none) →
      (Config.render (.components chatTemplate thinking toolCalls) ext fuel messages tools
          toolChoice p mx gs
        = match chatTemplate messages [] with
          | .ok prompt => .ok ⟨prompt, Option.none⟩
          | .error e => .err (.template e)) ∧
      Config.parserOutcome (Config.components chatTemplate thinking Option.none : Config Msg)
        = ParserOutcome.noParser := by
  intro Msg chatTemplate thinking toolCalls ext fuel messages tools toolChoice p mx gs h
  refine ⟨?_, rfl⟩
  cases toolCalls with
  | none => rfl
  | some tc =>
      rcases h with h | h | h
      · subst h
        rfl
      · subst h
        cases tools with
        | nil => rfl
        | cons t ts => rfl
      · cases h

theorem c7_short_circuit_no_grammar_witness :
    (Config.render (.components (constTemplate "hi") Option.none Option.none) trivialExternals
        0 [] [] ChatToolChoice.auto false false .lark
      = match constTemplate "hi" [] [] with
        | .ok prompt => .ok ⟨prompt, Option.none⟩
        | .error e => .err (.template e)) ∧
    Config.parserOutcome
        (Config.components (constTemplate "hi") Option.none Option.none : Config Unit)
      = ParserOutcome.noParser :=
  c7_short_circuit_no_grammar (constTemplate "hi") Option.none Option.none trivialExternals
    0 [] [] ChatToolChoice.auto false false .lark (Or.inl rfl)

/-- C8: a `Function(name)` tool choice naming no validated tool makes
`ChatToolChoice::render` — and the whole `Acquiesce::render` — return the
`ChatToolChoice` error, so no grammar (not even a partial one) is emitted;
when the name matches, the tool rule is built from exactly the selected
tool and `allow_content` is `false`. -/
theorem c8_function_choice_restricts_or_errors :
    ∀ (ext : RenderExternals) (fuel : Nat) (tc : ToolCall) (vts : List TemplateTool)
      (rs : Rules) (name : String),
      (vts.find? (fun t => t.name = name) = Option.none →
        ChatToolChoice.render (.function name) ext fuel tc vts rs
          = .err .chatToolChoice) ∧
      (∀ t, vts.find? (fun t => t.name = name) = Option.some t →
        ChatToolChoice.render (.function name) ext fuel tc vts rs
          = (tc.render ext fuel [t] rs) >>= fun r =>
              .ok (r.1, Option.some (r.2, false))) ∧
      (∀ {Msg : Type} (chatTemplate : List Msg → List TemplateTool → Except String String)
          (thinking : Option Thinking) (tcs : ToolCalls) (messages : List Msg)
          (tools : List ChatTool) (p mx : Bool) (gs : GrammarSyntax) (prompt : String),
        validateTools ext tools = .ok vts → tools ≠ [] →
        chatTemplate messages vts = .ok prompt →
        vts.find? (fun t => t.name = name) = Option.none →
        Config.render (.components chatTemplate thinking (Option.some tcs)) ext fuel
            messages tools (.function name) p mx gs
          = .err .chatToolChoice) := by
  intro ext fuel tc vts rs name
  refine ⟨?_, ?_, ?_⟩
  · intro hfind
    simp only [ChatToolChoice.render, hfind]
  · intro t hfind
    simp only [ChatToolChoice.render, hfind]
    rfl
  · intro Msg chatTemplate thinking tcs messages tools p mx gs prompt hval htne htmpl hfind
    cases tools with
    | nil => exact absurd rfl htne
    | cons t ts =>
        simp only [Config.render]
        rw [if_neg (by simp), if_neg (by simp)]
        simp only [hval, htmpl]
        cases tcs with
        | toolCall tc' =>
            show (compileGrammar ext fuel (.toolCall tc') vts (.function name) p
                (Rules.new gs)) >>= _ = _
            have h1 : compileGrammar ext fuel (.toolCall tc') vts (.function name) p
                (Rules.new gs) = .err .chatToolChoice := by
              show ChatToolChoice.render (.function name) ext fuel tc' vts (Rules.new gs)
                  = .err .chatToolChoice
              simp only [ChatToolChoice.render, hfind]
            rw [h1, Res.err_bind]
        | toolCallsSection pfx tc' sfx =>
            show (compileGrammar ext fuel (.toolCallsSection pfx tc' sfx) vts
                (.function name) p (Rules.new gs)) >>= _ = _
            have h1 : compileGrammar ext fuel (.toolCallsSection pfx tc' sfx) vts
                (.function name) p (Rules.new gs) = .err .chatToolChoice := by
              have h2 : ChatToolChoice.render (.function name) ext fuel tc' vts
                  (Rules.new gs) = .err .chatToolChoice := by
                simp only [ChatToolChoice.render, hfind]
              show (ChatToolChoice.render (.function name) ext fuel tc' vts (Rules.new gs))
                  >>= _ = _
              rw [h2, Res.err_bind]
            rw [h1, Res.err_bind]

theorem c8_function_choice_witness :
    ChatToolChoice.render (.function "missing") trivialExternals 0
        (.namedParameters Option.none Option.none .jsonObject Option.none) [c4Tool]
        (Rules.new .lark) = .err .chatToolChoice ∧
    Config.render (.components (constTemplate "hi") Option.none (Option.some c8ToolCalls))
        trivialExternals 0 [] [c8ChatTool] (.function "missing") false false .lark
      = .err .chatToolChoice :=
  ⟨(c8_function_choice_restricts_or_errors trivialExternals 0
      (.namedParameters Option.none Option.none .jsonObject Option.none) [c4Tool]
      (Rules.new .lark) "missing").1 rfl,
   (c8_function_choice_restricts_or_errors trivialExternals 0
      (.namedParameters Option.none Option.none .jsonObject Option.none)
      [c8ChatTool.toTemplateTool] (Rules.new .lark) "missing").2.2
      (constTemplate "hi") Option.none c8ToolCalls [] [c8ChatTool] false false .lark "hi"
      rfl (by simp) rfl rfl⟩

/-- C9: for a tool-calls section, `parallel_tool_calls = true` wraps the
tool-choice rule in an `insert_repetition` with bounds `(0, None)` —
rendered `keyStr k ++ "*"` and placed between the section prefix and
suffix — and under the standard repetition conventions a `(0, None)`
repetition admits every count `n ≥ 2`; with `parallel_tool_calls = false`
the tool-choice key itself appears exactly once between prefix and
suffix. -/
theorem c9_section_parallel_repetition (ext : RenderExternals) (fuel : Nat)
    (pfx : OrderedLexemes) (suffix : Option OrderedLexemes) (rs : Rules) (k : RuleKey)
    (hlark : rs.stx = .lark) (hk : k.1 ≠ "sequence") :
    (∃ rsF key pk rk tail,
        sectionWrap ext fuel pfx suffix rs k true = .ok (rsF, key) ∧
        rk.1 = "tool_choice" ∧
        repetitionBody k 0 Option.none = keyStr k ++ "*" ∧
        findRule rsF.rules rk = some (keyStr k ++ "*") ∧
        findRule rsF.rules key
          = some (String.intercalate " " (List.map keyStr ([pk, rk] ++ tail)))) ∧
    (∃ rsF key pk tail,
        sectionWrap ext fuel pfx suffix rs k false = .ok (rsF, key) ∧
        findRule rsF.rules key
          = some (String.intercalate " " (List.map keyStr ([pk, k] ++ tail))) ∧
        List.count k ([pk, k] ++ tail) = 1) ∧
    (∀ n, 2 ≤ n → repMatches 0 Option.none n = true) := by
  rcases orderedRender_lark pfx ext fuel rs hlark with ⟨rs₁, pk, heq₁, hstx₁, hpk, hmono₁⟩
  have hpkne : pk ≠ k := fun he => hk (he ▸ hpk)
  refine ⟨?_, ?_, ?_⟩
  · cases suffix with
    | none =>
        set r₂ := rs₁.insertRepetition "tool_choice" k 0 Option.none with hr₂
        set s₂ := r₂.1.insertSequence "tool_choices" [pk, r₂.2] with hs₂
        refine ⟨s₂.1, s₂.2, pk, r₂.2, [], ?_, ?_, rfl, ?_, ?_⟩
        · unfold sectionWrap
          rw [heq₁, Res.bind_ok]
          rfl
        · exact Rules.insertRule_name rs₁ "tool_choice" _
        · exact Rules.insertRule_mono _ _ _ _ _
            (Rules.insertRule_found rs₁ "tool_choice" _)
        · simpa using Rules.insertRule_found r₂.1 "tool_choices" _
    | some sfx =>
        set r₂ := rs₁.insertRepetition "tool_choice" k 0 Option.none with hr₂
        have hstx₂ : r₂.1.stx = .lark := hstx₁
        rcases orderedRender_lark sfx ext fuel r₂.1 hstx₂ with
          ⟨rs₃, sk, heq₂, hstx₃, hsk, hmono₂⟩
        set s₂ := rs₃.insertSequence "tool_choices" [pk, r₂.2, sk] with hs₂
        have step : sectionWrap ext fuel pfx (Option.some sfx) rs k true
            = (OrderedLexemes.render sfx ext fuel r₂.1) >>= fun rsk =>
                pure (rsk.1.insertSequence "tool_choices" [pk, r₂.2, rsk.2]) := by
          unfold sectionWrap
          rw [heq₁, Res.bind_ok]
          rfl
        refine ⟨s₂.1, s₂.2, pk, r₂.2, [sk], ?_, ?_, rfl, ?_, ?_⟩
        · rw [step, heq₂, Res.bind_ok]
          rfl
        · exact Rules.insertRule_name rs₁ "tool_choice" _
        · exact Rules.insertRule_mono _ _ _ _ _
            (hmono₂ _ _ (Rules.insertRule_found rs₁ "tool_choice" _))
        · exact Rules.insertRule_found rs₃ "tool_choices" _
  · cases suffix with
    | none =>
        set s₂ := rs₁.insertSequence "tool_choices" [pk, k] with hs₂
        refine ⟨s₂.1, s₂.2, pk, [], ?_, ?_, ?_⟩
        · unfold sectionWrap
          rw [heq₁, Res.bind_ok]
          rfl
        · simpa using Rules.insertRule_found rs₁ "tool_choices" _
        · simp [List.count_cons, hpkne]
    | some sfx =>
        rcases orderedRender_lark sfx ext fuel rs₁ hstx₁ with
          ⟨rs₃, sk, heq₂, hstx₃, hsk, hmono₂⟩
        have hskne : sk ≠ k := fun he => hk (he ▸ hsk)
        set s₂ := rs₃.insertSequence "tool_choices" [pk, k, sk] with hs₂
        have step : sectionWrap ext fuel pfx (Option.some sfx) rs k false
            = (OrderedLexemes.render sfx ext fuel rs₁) >>= fun rsk =>
                pure (rsk.1.insertSequence "tool_choices" [pk, k, rsk.2]) := by
          unfold sectionWrap
          rw [heq₁, Res.bind_ok]
          rfl
        refine ⟨s₂.1, s₂.2, pk, [sk], ?_, ?_, ?_⟩
        · rw [step, heq₂, Res.bind_ok]
          rfl
        · exact Rules.insertRule_found rs₃ "tool_choices" _
        · simp [List.count_cons, hpkne, hskne]
  · intro n hn
    simp [repMatches]

theorem c9_section_parallel_repetition_witness :
    (∃ rsF key pk rk tail,
        sectionWrap trivialExternals 0 [Lexeme.token "<sec>"]
            (Option.some [Lexeme.token "</sec>"]) (Rules.new .lark) ("tool_choices", 0)
            true = .ok (rsF, key) ∧
        rk.1 = "tool_choice" ∧
        repetitionBody ("tool_choices", 0) 0 Option.none
          = keyStr ("tool_choices", 0) ++ "*" ∧
        findRule rsF.rules rk = some (keyStr ("tool_choices", 0) ++ "*") ∧
        findRule rsF.rules key
          = some (String.intercalate " " (List.map keyStr ([pk, rk] ++ tail)))) ∧
    (∃ rsF key pk tail,
        sectionWrap trivialExternals 0 [Lexeme.token "<sec>"]
            (Option.some [Lexeme.token "</sec>"]) (Rules.new .lark) ("tool_choices", 0)
            false = .ok (rsF, key) ∧
        findRule rsF.rules key
          = some (String.intercalate " "
              (List.map keyStr ([pk, ("tool_choices", 0)] ++ tail))) ∧
        List.count (("tool_choices", 0) : RuleKey) ([pk, ("tool_choices", 0)] ++ tail)
          = 1) ∧
    (∀ n, 2 ≤ n → repMatches 0 Option.none n = true) :=
  c9_section_parallel_repetition trivialExternals 0 [Lexeme.token "<sec>"]
    (Option.some [Lexeme.token "</sec>"]) (Rules.new .lark) ("tool_choices", 0) rfl
    (by decide)

/-- C10: deserializing a tool choice from a bare JSON string is total: the
exact strings `none`, `auto`, `required` map to their variants and every
other string — case variants such as `NONE` included — becomes a
`Function` choice carrying that string as the name. -/
theorem c10_tool_choice_string_conversion :
    ChatToolChoice.fromRepr (.string "none") = .none ∧
    ChatToolChoice.fromRepr (.string "auto") = .auto ∧
    ChatToolChoice.fromRepr (.string "required") = .required ∧
    ChatToolChoice.fromRepr (.string "NONE") = .function "NONE" ∧
    (∀ s : String, s ≠ "none" → s ≠ "auto" → s ≠ "required" →
      ChatToolChoice.fromRepr (.string s) = .function s) := by
  refine ⟨rfl, rfl, rfl, rfl, ?_⟩
  intro s h1 h2 h3
  simp only [ChatToolChoice.fromRepr]
  rw [if_neg h1, if_neg h2, if_neg h3]

theorem c10_tool_choice_string_conversion_witness :
    ChatToolChoice.fromRepr (.string "frobnicate") = .function "frobnicate" :=
  c10_tool_choice_string_conversion.2.2.2.2 "frobnicate" (by decide) (by decide) (by decide)

end Acquiesce
